import Mathlib

/-!
# Verification of the OSEPL4 telemetry bitstring codec

Shallow embedding of the telemetry encoder (`src/fake_tm_generator.py`) and
decoder (`src/parser.py`).  Byte strings are modelled as `List ℕ` with each
element `< 256`; hex strings as `List Char`; Python `struct` errors and other
raised exceptions as an explicit error type threaded through `Except`.

IEEE-754 doubles are modelled by their 64-bit patterns (`ℕ < 2^64`) together
with exact rational arithmetic for the rounding performed by CPython's
`datetime.fromtimestamp` / `datetime.timestamp` pipeline; `float32` values by
their 32-bit patterns.  No `Float`/`BitVec` machinery is used: every rounding
step is an explicit round-to-nearest-ties-even on `ℚ`.
-/

set_option maxRecDepth 100000

namespace OSEPL4

/-- Errors that the modelled Python code can raise, plus the error names the
specification's taxonomy introduces (`SchemaMismatchError`, ...), so that the
spec's error-handling claims are statable against the code.  The code itself
only ever produces `structError`, `typeError`, `indexError`, `valueError`
(datetime range) and `overflowError` (float32 pack overflow). -/
inductive PyErr where
  | structError : PyErr
  | typeError : PyErr
  | indexError : PyErr
  | valueError : PyErr
  | overflowError : PyErr
  | schemaMismatchError : PyErr
  | encodingRangeError : PyErr
  | unsupportedWidthError : PyErr
  | truncatedInputError : PyErr
  | integrityError : PyErr
deriving DecidableEq, Repr

instance {e a : Type} [DecidableEq e] [DecidableEq a] : DecidableEq (Except e a) := fun
  | .error x, .error y =>
    if h : x = y then .isTrue (by rw [h])
    else .isFalse (by intro hc; cases hc; exact h rfl)
  | .error _, .ok _ => .isFalse (by intro hc; cases hc)
  | .ok _, .error _ => .isFalse (by intro hc; cases hc)
  | .ok x, .ok y =>
    if h : x = y then .isTrue (by rw [h])
    else .isFalse (by intro hc; cases hc; exact h rfl)

/-! ## Big-endian byte packing (`struct.pack`/`struct.unpack` integer core) -/

/-- Big-endian byte list of `v` on `w` bytes (the byte content of
`struct.pack` for the unsigned formats `>B`, `>H`, `>I`, `>Q`). -/
def natToBE (w v : ℕ) : List ℕ :=
  (List.range w).map (fun i => v / 256 ^ (w - 1 - i) % 256)

/-- Big-endian value of a byte list (the unsigned `struct.unpack` core). -/
def beToNat (bs : List ℕ) : ℕ :=
  bs.foldl (fun acc b => acc * 256 + b) 0

theorem natToBE_length (w v : ℕ) : (natToBE w v).length = w := by
  simp [natToBE]

theorem natToBE_succ (w v : ℕ) :
    natToBE (w + 1) v = natToBE w (v / 256) ++ [v % 256] := by
  simp only [natToBE, List.range_succ, List.map_append, List.map_cons,
    List.map_nil]
  have hmap : List.map (fun i => v / 256 ^ (w + 1 - 1 - i) % 256) (List.range w)
      = List.map (fun i => v / 256 / 256 ^ (w - 1 - i) % 256) (List.range w) := by
    apply List.map_congr_left
    intro i hi
    have hi' : i < w := List.mem_range.mp hi
    have h1 : w + 1 - 1 - i = (w - 1 - i) + 1 := by omega
    rw [h1, pow_succ, Nat.mul_comm, ← Nat.div_div_eq_div_mul]
  have h2 : w + 1 - 1 - w = 0 := by omega
  rw [hmap, h2]
  simp

theorem beToNat_append_singleton (bs : List ℕ) (b : ℕ) :
    beToNat (bs ++ [b]) = beToNat bs * 256 + b := by
  simp [beToNat, List.foldl_append]

theorem beToNat_natToBE (w v : ℕ) (h : v < 256 ^ w) :
    beToNat (natToBE w v) = v := by
  induction w generalizing v with
  | zero =>
    simp [natToBE, beToNat]
    omega
  | succ w ih =>
    rw [natToBE_succ, beToNat_append_singleton, ih (v / 256) ?_]
    · rw [Nat.mul_comm]; exact Nat.div_add_mod v 256
    · rw [Nat.div_lt_iff_lt_mul (by norm_num)]
      calc v < 256 ^ (w + 1) := h
        _ = 256 ^ w * 256 := by ring

theorem natToBE_lt (w v : ℕ) : ∀ b ∈ natToBE w v, b < 256 := by
  intro b hb
  simp only [natToBE, List.mem_map] at hb
  obtain ⟨i, _, rfl⟩ := hb
  exact Nat.mod_lt _ (by norm_num)

/-! ## Hex text layer (`bytearray.hex()` / `bytes.fromhex`) -/

/-- Lowercase hex digit character for `n < 16` (as produced by
`bytearray.hex()`). -/
def hexDigit (n : ℕ) : Char :=
  if n < 10 then Char.ofNat (48 + n) else Char.ofNat (87 + n)

/-- Hex encoding of a byte list: two lowercase hex characters per byte
(`bytearray.hex()`). -/
def hexEncodeBytes (bs : List ℕ) : List Char :=
  bs.flatMap (fun b => [hexDigit (b / 16), hexDigit (b % 16)])

/-- Numeric value of a hex character, if any (both cases accepted, as by
`bytes.fromhex`). -/
def hexVal (c : Char) : Option ℕ :=
  if 48 ≤ c.toNat ∧ c.toNat ≤ 57 then some (c.toNat - 48)
  else if 97 ≤ c.toNat ∧ c.toNat ≤ 102 then some (c.toNat - 87)
  else if 65 ≤ c.toNat ∧ c.toNat ≤ 70 then some (c.toNat - 55)
  else none

/-- `bytes.fromhex`: pairs of hex digits; an odd length or a non-hex character
raises `ValueError`.  (The model does not accept the optional ASCII spaces
that `fromhex` skips; the codec never produces them.) -/
def hexDecode : List Char → Except PyErr (List ℕ)
  | [] => .ok []
  | [_] => .error .valueError
  | c₁ :: c₂ :: rest =>
    match hexVal c₁, hexVal c₂ with
    | some h, some l =>
      match hexDecode rest with
      | .ok bs => .ok ((h * 16 + l) :: bs)
      | .error e => .error e
    | _, _ => .error .valueError

theorem hexVal_hexDigit (n : ℕ) (h : n < 16) : hexVal (hexDigit n) = some n := by
  interval_cases n <;> decide

theorem hexDecode_hexEncodeBytes (bs : List ℕ) (h : ∀ b ∈ bs, b < 256) :
    hexDecode (hexEncodeBytes bs) = .ok bs := by
  induction bs with
  | nil => rfl
  | cons b rest ih =>
    have hb : b < 256 := h b (by simp)
    have h1 : b / 16 < 16 := by omega
    have h2 : b % 16 < 16 := by omega
    simp only [hexEncodeBytes, List.flatMap_cons, List.cons_append,
      List.nil_append]
    show hexDecode (hexDigit (b / 16) :: hexDigit (b % 16) ::
      hexEncodeBytes rest) = _
    rw [hexDecode, hexVal_hexDigit _ h1, hexVal_hexDigit _ h2]
    rw [ih (fun x hx => h x (by simp [hx]))]
    have hb' : b / 16 * 16 + b % 16 = b := by
      rw [Nat.mul_comm]; exact Nat.div_add_mod b 16
    simp [hb']

theorem hexEncodeBytes_length (bs : List ℕ) :
    (hexEncodeBytes bs).length = 2 * bs.length := by
  induction bs with
  | nil => rfl
  | cons b rest ih => simp [hexEncodeBytes, List.flatMap_cons] at ih ⊢; omega

/-! ## Exact model of IEEE-754 binary64 rounding

CPython's `fromtimestamp`/`timestamp` pipeline performs double-precision
arithmetic; here every double is the exact rational it denotes and each
operation result passes through `dblRound`, round-to-nearest ties-to-even at
53 significant bits.  (Overflow and subnormal underflow thresholds are not
modelled: every quantity in the timestamp pipeline is far inside the normal
binary64 range.)  This model was checked bit-for-bit against CPython on
thousands of random inputs. -/

/-- Round a rational to the nearest integer, ties to even (C `rint` under the
default rounding mode, and CPython's `_PyTime_ROUND_HALF_EVEN`). -/
def rhe (q : ℚ) : ℤ :=
  let f := ⌊q⌋
  let r := q - f
  if r < 1/2 then f
  else if 1/2 < r then f + 1
  else if Even f then f else f + 1

/-- Truncation toward zero of a rational (Python `int(float)`, C `modf`
integral part). -/
def ratTrunc (q : ℚ) : ℤ :=
  if q < 0 then -⌊-q⌋ else ⌊q⌋

/-- Structural (fuel-based) base-2 logarithm, kernel-computable. -/
def log2F : ℕ → ℕ → ℕ
  | _, 0 => 0
  | 0, _ => 0
  | fuel + 1, n => if 2 ≤ n then log2F fuel (n / 2) + 1 else 0

/-- `natLog2 n` is the floor of `log₂ n` for `n ≥ 1`. -/
def natLog2 (n : ℕ) : ℕ := log2F n n

theorem log2F_succ_eq (fuel n : ℕ) :
    log2F (fuel + 1) (n + 1) = if 2 ≤ n + 1 then log2F fuel ((n + 1) / 2) + 1 else 0 :=
  rfl

theorem log2F_bounds (fuel : ℕ) : ∀ n, n ≤ fuel → n ≠ 0 →
    2 ^ log2F fuel n ≤ n ∧ n < 2 ^ (log2F fuel n + 1) := by
  induction fuel with
  | zero => intro n h h0; omega
  | succ fuel ih =>
    intro n' h h0
    obtain ⟨n, rfl⟩ : ∃ m, n' = m + 1 := ⟨n' - 1, by omega⟩
    show 2 ^ log2F (fuel + 1) (n + 1) ≤ n + 1 ∧
      n + 1 < 2 ^ (log2F (fuel + 1) (n + 1) + 1)
    rw [log2F_succ_eq]
    by_cases h2 : 2 ≤ n + 1
    · rw [if_pos h2]
      have hd : (n + 1) / 2 ≤ fuel := by omega
      have hd0 : (n + 1) / 2 ≠ 0 := by omega
      obtain ⟨hl, hu⟩ := ih ((n + 1) / 2) hd hd0
      constructor
      · calc 2 ^ (log2F fuel ((n + 1) / 2) + 1)
            = 2 * 2 ^ log2F fuel ((n + 1) / 2) := by ring
          _ ≤ 2 * ((n + 1) / 2) := by omega
          _ ≤ n + 1 := by omega
      · calc n + 1 < 2 * ((n + 1) / 2) + 2 := by omega
          _ = 2 * ((n + 1) / 2 + 1) := by ring
          _ ≤ 2 * 2 ^ (log2F fuel ((n + 1) / 2) + 1) := by omega
          _ = 2 ^ (log2F fuel ((n + 1) / 2) + 1 + 1) := by ring
    · rw [if_neg h2]
      omega

theorem natLog2_self_le {n : ℕ} (h : n ≠ 0) : 2 ^ natLog2 n ≤ n :=
  (log2F_bounds n n le_rfl h).1

theorem natLog2_lt_self {n : ℕ} (h : n ≠ 0) : n < 2 ^ (natLog2 n + 1) :=
  (log2F_bounds n n le_rfl h).2

/-- `2 ^ k` over ℚ with the power computed on `ℕ` (kernel-accelerated),
keeping whole-number reduction shallow. -/
def pow2Q (k : ℤ) : ℚ :=
  if 0 ≤ k then ((2 ^ k.toNat : ℕ) : ℚ) else ((2 ^ (-k).toNat : ℕ) : ℚ)⁻¹

theorem pow2Q_eq_zpow (k : ℤ) : pow2Q k = (2:ℚ) ^ k := by
  unfold pow2Q
  split
  · next h =>
    obtain ⟨n, rfl⟩ := Int.eq_ofNat_of_zero_le h
    rw [Int.toNat_ofNat, zpow_natCast]
    push_cast
    ring
  · next h =>
    push_neg at h
    obtain ⟨n, hn⟩ := Int.eq_ofNat_of_zero_le (by omega : (0:ℤ) ≤ -k)
    have hk : k = -(n : ℤ) := by omega
    rw [hk]
    rw [zpow_neg, ← hk, hn, Int.toNat_ofNat, zpow_natCast]
    push_cast
    ring

/-- Exponent finder: an integer `e` (the floor of `log₂ q` for `q > 0`) used
to align the 53-bit significand. -/
def findExp (q : ℚ) : ℤ :=
  let e : ℤ := (natLog2 q.num.natAbs : ℤ) - (natLog2 q.den : ℤ)
  if pow2Q (e + 1) ≤ q then e + 1
  else if q < pow2Q e then e - 1
  else e

/-- Positive-case binary64 rounding: align to 53 significant bits and round
half to even. -/
def dblRoundPos (q : ℚ) : ℚ :=
  let e := findExp q
  ((rhe (q * pow2Q ((52:ℤ) - e)) : ℚ)) * pow2Q (e - 52)

/-- Round a rational to the nearest binary64 value (ties to even). -/
def dblRound (q : ℚ) : ℚ :=
  if q = 0 then 0
  else if q < 0 then -dblRoundPos (-q)
  else dblRoundPos q

theorem rhe_intCast (n : ℤ) : rhe (n : ℚ) = n := by
  simp [rhe]

theorem ratTrunc_intCast (n : ℤ) : ratTrunc (n : ℚ) = n := by
  unfold ratTrunc
  rcases lt_or_ge (n : ℚ) 0 with h | h
  · rw [if_pos h, ← Int.cast_neg, Int.floor_intCast, neg_neg]
  · rw [if_neg (not_lt.mpr h), Int.floor_intCast]

theorem dblRound_zero : dblRound 0 = 0 := by simp [dblRound]

/-- Any integer of magnitude below `2^53` is an exact binary64 value. -/
theorem dblRound_natCast (n : ℕ) (h : n < 2 ^ 53) : dblRound (n : ℚ) = n := by
  rcases Nat.eq_zero_or_pos n with rfl | hn
  · simp [dblRound]
  have hq0 : (0:ℚ) < (n : ℚ) := by exact_mod_cast hn
  rw [dblRound, if_neg (by positivity), if_neg (by push_neg; positivity)]
  have hunfold : dblRoundPos (n:ℚ) =
      ((rhe ((n:ℚ) * pow2Q ((52:ℤ) - findExp (n:ℚ))) : ℚ)) *
        pow2Q (findExp (n:ℚ) - 52) := rfl
  rw [hunfold]
  simp only [pow2Q_eq_zpow]
  set e := findExp (n : ℚ) with he
  have hele : e ≤ 52 := by
    -- `findExp` of an integer `< 2^53` never exceeds 52
    have hnum : ((n : ℚ)).num.natAbs = n := by
      simp [Rat.num_natCast]
    have hden : ((n : ℚ)).den = 1 := Rat.den_natCast n
    have hlog : natLog2 n ≤ 52 := by
      by_contra hcon
      push_neg at hcon
      have h53 : 2 ^ 53 ≤ n := by
        calc (2:ℕ) ^ 53 ≤ 2 ^ natLog2 n := Nat.pow_le_pow_right (by norm_num) hcon
          _ ≤ n := natLog2_self_le (by omega)
      omega
    have hup : (n : ℚ) < (2:ℚ) ^ ((natLog2 n : ℤ) + 1) := by
      have := natLog2_lt_self (n := n) (by omega)
      have h2 : ((2:ℚ)) ^ ((natLog2 n : ℤ) + 1) = ((2 ^ (natLog2 n + 1) : ℕ) : ℚ) := by
        have hc : ((natLog2 n : ℤ) + 1) = ((natLog2 n + 1 : ℕ) : ℤ) := by
          push_cast; ring
        rw [hc, zpow_natCast]
        push_cast; ring
      rw [h2]
      exact_mod_cast this
    rw [he]
    unfold findExp
    rw [hnum, hden]
    have hl1 : natLog2 1 = 0 := by decide
    simp only [hl1, Nat.cast_zero, sub_zero, pow2Q_eq_zpow]
    split
    · next hcase =>
      exact absurd hcase (not_le.mpr hup)
    · split
      · omega
      · omega
  have h52 : (0:ℤ) ≤ 52 - e := by omega
  obtain ⟨k, hk⟩ := Int.eq_ofNat_of_zero_le h52
  have hpow : ((2:ℚ)) ^ ((52:ℤ) - e) = ((2 ^ k : ℕ) : ℚ) := by
    rw [hk]
    push_cast
    rw [zpow_natCast]
  have hprod : (n : ℚ) * (2:ℚ) ^ ((52:ℤ) - e) = ((n * 2 ^ k : ℕ) : ℚ) := by
    rw [hpow]; push_cast; ring
  rw [hprod]
  have hint : ((n * 2 ^ k : ℕ) : ℚ) = (((n * 2 ^ k : ℕ) : ℤ) : ℚ) := by push_cast; ring
  rw [hint, rhe_intCast]
  have : (((n * 2 ^ k : ℕ) : ℤ) : ℚ) * (2:ℚ) ^ (e - 52) =
      (n : ℚ) * ((2:ℚ) ^ ((52:ℤ) - e) * (2:ℚ) ^ (e - 52)) := by
    rw [hpow]; push_cast; ring
  rw [this, ← zpow_add₀ (by norm_num : (2:ℚ) ≠ 0)]
  have hz : (52:ℤ) - e + (e - 52) = 0 := by ring
  rw [hz, zpow_zero, mul_one]

theorem dblRound_intCast_nonneg (n : ℤ) (h0 : 0 ≤ n) (h : n < 2 ^ 53) :
    dblRound (n : ℚ) = n := by
  obtain ⟨m, rfl⟩ := Int.eq_ofNat_of_zero_le h0
  have hc : ((m : ℤ) : ℚ) = (m : ℚ) := by push_cast; ring
  rw [hc, dblRound_natCast m (by exact_mod_cast h)]

/-! ## IEEE-754 binary32/binary64 bit patterns

A Python float is a binary64 value, modelled by its 64-bit pattern.
`struct.pack('>f', x)` converts the double to binary32 (round to nearest,
ties to even; `OverflowError` if a finite double lands on infinity);
`struct.unpack('>f', b)[0]` widens the binary32 exactly back to a double.
These conversions were checked bit-for-bit against CPython `struct` on
thousands of random doubles, including subnormals, infinities and NaN. -/

/-- Exact rational value of a finite binary64 pattern. -/
def f64ToRat (p : ℕ) : ℚ :=
  let s : ℕ := p / 2 ^ 63
  let e : ℕ := p / 2 ^ 52 % 2 ^ 11
  let m : ℕ := p % 2 ^ 52
  let mag : ℚ :=
    if e = 0 then (m : ℚ) * pow2Q (-(1074:ℤ))
    else ((2 ^ 52 + m : ℕ) : ℚ) * pow2Q ((e : ℤ) - 1075)
  if s = 1 then -mag else mag

/-- Round a nonnegative rational to a binary32 pattern (magnitude only):
round to nearest, ties to even, with subnormal underflow and overflow to
infinity. -/
def f32OfRatMag (q : ℚ) : ℕ :=
  if q = 0 then 0
  else
    let e := findExp q
    if e < -126 then
      -- subnormal range
      let m := (rhe (q * pow2Q (149:ℤ))).toNat
      if m = 0 then 0
      else if 2 ^ 23 ≤ m then 2 ^ 23  -- rounded up to the smallest normal
      else m
    else
      let m := (rhe (q * pow2Q ((23:ℤ) - e))).toNat
      let (m, e) := if m = 2 ^ 24 then (2 ^ 23, e + 1) else (m, e)
      if 127 < e then 255 * 2 ^ 23  -- infinity
      else (e + 127).toNat * 2 ^ 23 + (m - 2 ^ 23)

/-- `struct.pack('>f', ·)` bit conversion: binary64 pattern to binary32
pattern (x86 `cvtsd2ss` semantics for NaN: keep the high mantissa bits and
force the quiet bit). -/
def narrowF64F32 (p : ℕ) : ℕ :=
  let s : ℕ := p / 2 ^ 63
  let e : ℕ := p / 2 ^ 52 % 2 ^ 11
  let m : ℕ := p % 2 ^ 52
  if e = 2047 then
    if m = 0 then s * 2 ^ 31 + 255 * 2 ^ 23
    else s * 2 ^ 31 + 255 * 2 ^ 23 + Nat.lor (m / 2 ^ 29) (2 ^ 22)
  else
    let q := f64ToRat p
    s * 2 ^ 31 + f32OfRatMag (if s = 1 then -q else q)

/-- `struct.unpack('>f', ·)` semantics: widen a binary32 pattern exactly to
the binary64 pattern of the same value (subnormals are normalised; NaN
payloads shift up). -/
def widenF32F64 (p : ℕ) : ℕ :=
  let s : ℕ := p / 2 ^ 31
  let e : ℕ := p / 2 ^ 23 % 2 ^ 8
  let m : ℕ := p % 2 ^ 23
  if e = 255 then s * 2 ^ 63 + 2047 * 2 ^ 52 + m * 2 ^ 29
  else if e = 0 then
    if m = 0 then s * 2 ^ 63
    else
      let k := natLog2 m
      s * 2 ^ 63 + (k + 1023 - 149) * 2 ^ 52 + (m - 2 ^ k) * 2 ^ (52 - k)
  else s * 2 ^ 63 + (e + 1023 - 127) * 2 ^ 52 + m * 2 ^ 29

/-- A 64-bit pattern denotes a value exactly representable in binary32
(narrowing then widening is the identity).  This is what the spec means by a
field "being float32". -/
def isF32 (p : ℕ) : Prop :=
  p < 2 ^ 64 ∧ widenF32F64 (narrowF64F32 p) = p

instance (p : ℕ) : Decidable (isF32 p) := by
  unfold isF32; infer_instance

/-- A finite binary64 pattern whose binary32 narrowing overflows to infinity:
`struct.pack('>f', ·)` raises `OverflowError` there. -/
def f32PackOverflows (p : ℕ) : Bool :=
  decide (p / 2 ^ 52 % 2 ^ 11 ≠ 2047 ∧ narrowF64F32 p % 2 ^ 31 = 255 * 2 ^ 23)

/-! ## Timestamp codec

`epoch_to_bytes` (fake_tm_generator.py, lines 33-47) packs
`int(epoch.timestamp() * 1000)` — the millisecond count of the instant —
as a big-endian uint64.  A `TelemetryRecord`'s epoch fields are therefore
modelled directly by that millisecond count.

`BitStringParser.bytes_to_tt2000` (parser.py, lines 19-33) unpacks the
uint64 and computes `datetime.datetime.fromtimestamp(timestamp_ms / 1000.0)`
— a *naive local* datetime — and its `isoformat()`.  The caller then stores
`int(dt.timestamp() * 1000)`.  The host time zone is modelled as a fixed
UTC offset `off` (in seconds); `fromtimestamp` breaks the instant down in
local wall-clock time, and the naive `dt.timestamp()` reverses that via
`mktime`.  Every double operation goes through `dblRound`; the composite was
validated bit-for-bit against CPython under both UTC and +09:00. -/

/-- A naive Python `datetime` (what `fromtimestamp` returns): wall-clock
seconds since the Unix epoch *in the host's local time*, plus microseconds.
`isoformat()` is an injective rendering of this value, so the model keeps
the numeric form. -/
structure NaiveDt where
  wallSec : ℤ
  usec : ℕ
deriving DecidableEq, Repr

/-- CPython `_PyTime_ObjectToTimeval` on a double `t` (exact rational of a
binary64 value): `modf` split, fractional part scaled to microseconds in
double arithmetic, rounded half-to-even, with carry. -/
def pyTimeval (t : ℚ) : ℤ × ℤ :=
  let ip : ℤ := ratTrunc t
  let x : ℚ := dblRound ((t - (ip : ℚ)) * 1000000)
  let r : ℤ := rhe x
  if 1000000 ≤ r then (ip + 1, r - 1000000)
  else if r < 0 then (ip - 1, r + 1000000)
  else (ip, r)

/-- `datetime.datetime.fromtimestamp(t)` under a fixed host UTC offset
`off` (seconds): instant split into seconds/microseconds, broken down in
local time.  Raises (`ValueError`/`OverflowError`/`OSError`) when the local
calendar year leaves 1..9999. -/
def pyFromtimestamp (off : ℤ) (t : ℚ) : Except PyErr NaiveDt :=
  let p := pyTimeval t
  let wall := p.1 + off
  if wall < -62135596800 ∨ 253402300799 < wall then .error .valueError
  else .ok ⟨wall, p.2.toNat⟩

/-- `dt.timestamp()` of a naive datetime: `self._mktime() + self.microsecond
/ 1e6` in double arithmetic; `_mktime` inverts the local breakdown (exact
for a fixed-offset zone). -/
def pyNaiveTimestamp (off : ℤ) (d : NaiveDt) : ℚ :=
  let s : ℤ := d.wallSec - off
  dblRound (dblRound (s : ℚ) + dblRound ((d.usec : ℚ) / 1000000))

/-- `int(dt.timestamp() * 1000)` — the `timestamp_ms` field the parser
stores for each epoch entry. -/
def dtTimestampMs (off : ℤ) (d : NaiveDt) : ℤ :=
  ratTrunc (dblRound (pyNaiveTimestamp off d * 1000))

/-- `BitStringParser.bytes_to_tt2000`: `struct.unpack('>Q', byte_data)`
(struct.error unless exactly 8 bytes), then
`datetime.datetime.fromtimestamp(timestamp_ms / 1000.0)`.  Returns the
naive datetime; the ISO string is derived injectively from it. -/
def bytes_to_tt2000 (off : ℤ) (byte_data : List ℕ) : Except PyErr NaiveDt :=
  if byte_data.length = 8 then
    pyFromtimestamp off (dblRound ((beToNat byte_data : ℚ) / 1000))
  else .error .structError

/-- The epoch entry the parser records: `timestamp_ms` together with the
naive datetime that determines `iso_format`. -/
def msEpochEntry (off : ℤ) (ms : ℕ) : Except PyErr (ℤ × NaiveDt) :=
  match bytes_to_tt2000 off (natToBE 8 ms) with
  | .error e => .error e
  | .ok d => .ok (dtTimestampMs off d, d)

theorem rhe_zero : rhe 0 = 0 := by
  have h : ((0 : ℤ) : ℚ) = (0 : ℚ) := by norm_num
  rw [← h, rhe_intCast]

theorem dblRound_div_thousand (k : ℕ) (h : k < 2 ^ 53) :
    dblRound (((1000 * k : ℕ) : ℚ) / 1000) = (k : ℚ) := by
  have hq : (((1000 * k : ℕ) : ℚ) / 1000) = (k : ℚ) := by
    push_cast
    field_simp
  rw [hq, dblRound_natCast k h]

theorem pyTimeval_natCast (k : ℕ) :
    pyTimeval (k : ℚ) = ((k : ℤ), 0) := by
  have hcast : ((k : ℕ) : ℚ) = ((k : ℤ) : ℚ) := by push_cast; ring
  simp only [pyTimeval, hcast, ratTrunc_intCast]
  have hzero : ((((k : ℤ) : ℚ)) - (((k : ℤ) : ℚ))) * 1000000 = 0 := by ring
  rw [hzero, dblRound_zero, rhe_zero]
  norm_num

theorem pyNaiveTimestamp_exact (off : ℤ) (k : ℕ) (h : k < 2 ^ 53) :
    pyNaiveTimestamp off ⟨(k : ℤ) + off, 0⟩ = (k : ℚ) := by
  simp only [pyNaiveTimestamp]
  have hs : (k : ℤ) + off - off = (k : ℤ) := by ring
  rw [hs]
  have hus : (((0 : ℕ) : ℚ) / 1000000) = 0 := by norm_num
  rw [hus, dblRound_zero, add_zero]
  have hd : dblRound (((k : ℤ) : ℚ)) = ((k : ℤ) : ℚ) :=
    dblRound_intCast_nonneg (k : ℤ) (by positivity) (by exact_mod_cast h)
  rw [hd, hd]
  push_cast
  ring

theorem dtTimestampMs_exact (off : ℤ) (k : ℕ) (hk : 1000 * k < 2 ^ 53) :
    dtTimestampMs off ⟨(k : ℤ) + off, 0⟩ = ((1000 * k : ℕ) : ℤ) := by
  have hk53 : k < 2 ^ 53 := by omega
  unfold dtTimestampMs
  rw [pyNaiveTimestamp_exact off k hk53]
  have hmul : ((k : ℚ)) * 1000 = ((1000 * k : ℕ) : ℚ) := by push_cast; ring
  rw [hmul, dblRound_natCast (1000 * k) hk]
  have hcast2 : ((1000 * k : ℕ) : ℚ) = (((1000 * k : ℕ) : ℤ) : ℚ) := by
    push_cast; ring
  rw [hcast2, ratTrunc_intCast]

theorem bytes_to_tt2000_whole_second (off : ℤ) (k : ℕ)
    (hk : 1000 * k < 2 ^ 53)
    (hlo : -62135596800 ≤ (k : ℤ) + off)
    (hhi : (k : ℤ) + off ≤ 253402300799) :
    bytes_to_tt2000 off (natToBE 8 (1000 * k)) = .ok ⟨(k : ℤ) + off, 0⟩ := by
  have hk53 : k < 2 ^ 53 := by omega
  have hms64 : 1000 * k < 256 ^ 8 := by
    have : (2 : ℕ) ^ 53 < 256 ^ 8 := by norm_num
    omega
  unfold bytes_to_tt2000
  rw [natToBE_length]
  rw [if_pos rfl, beToNat_natToBE 8 (1000 * k) hms64]
  rw [dblRound_div_thousand k hk53]
  unfold pyFromtimestamp
  rw [pyTimeval_natCast]
  simp only []
  rw [if_neg (by push_neg; omega)]
  rfl

/-- Exactness of the millisecond round trip on whole seconds: for a
millisecond count that is a multiple of 1000 (and inside the `datetime`
range for the host offset), the parser's `timestamp_ms` equals the encoded
value and the decoded wall clock is the UTC second count shifted by the
host offset. -/
theorem msEpochEntry_whole_second (off : ℤ) (k : ℕ)
    (hk : 1000 * k < 2 ^ 53)
    (hlo : -62135596800 ≤ (k : ℤ) + off)
    (hhi : (k : ℤ) + off ≤ 253402300799) :
    msEpochEntry off (1000 * k) =
      .ok (((1000 * k : ℕ) : ℤ), ⟨(k : ℤ) + off, 0⟩) := by
  unfold msEpochEntry
  rw [bytes_to_tt2000_whole_second off k hk hlo hhi]
  show Except.ok (dtTimestampMs off ⟨(k : ℤ) + off, 0⟩, (⟨(k : ℤ) + off, 0⟩ : NaiveDt)) = _
  rw [dtTimestampMs_exact off k hk]

/-! ## Scalar value codec

`value_to_bytes` (fake_tm_generator.py, lines 306-332): for floats the value
is a Python double, modelled by its binary64 pattern; `num_bytes == 4` packs
`'>f'` (binary32 conversion, `OverflowError` when a finite double lands on
infinity), *any other* width packs `'>d'` (8 bytes).  For integers the
widths 1/2/4/8 pack big-endian with `struct.error` on out-of-range values,
and any other width falls off the `elif` chain and returns `None`
(modelled `.ok none`). -/
def value_to_bytes (value : ℕ) (num_bytes : ℕ) (is_float : Bool) :
    Except PyErr (Option (List ℕ)) :=
  if is_float then
    if num_bytes = 4 then
      if f32PackOverflows value then .error .overflowError
      else .ok (some (natToBE 4 (narrowF64F32 value)))
    else .ok (some (natToBE 8 value))
  else
    if num_bytes = 1 then
      if value < 2 ^ 8 then .ok (some (natToBE 1 value)) else .error .structError
    else if num_bytes = 2 then
      if value < 2 ^ 16 then .ok (some (natToBE 2 value)) else .error .structError
    else if num_bytes = 4 then
      if value < 2 ^ 32 then .ok (some (natToBE 4 value)) else .error .structError
    else if num_bytes = 8 then
      if value < 2 ^ 64 then .ok (some (natToBE 8 value)) else .error .structError
    else .ok none

/-- `bytes_to_value` (parser.py, lines 35-65): dispatches on the *length* of
the byte slice.  Floats: 4 bytes unpack `'>f'` (the returned double is the
exact widening of the binary32 pattern), anything else is attempted as
`'>d'`, which raises `struct.error` unless exactly 8 bytes.  Integers:
lengths 1/2/4/8 unpack big-endian; any other length falls through and
returns `None`. -/
def bytes_to_value (byte_data : List ℕ) (is_float : Bool) :
    Except PyErr (Option ℕ) :=
  if is_float then
    if byte_data.length = 4 then .ok (some (widenF32F64 (beToNat byte_data)))
    else if byte_data.length = 8 then .ok (some (beToNat byte_data))
    else .error .structError
  else
    if byte_data.length = 1 ∨ byte_data.length = 2 ∨ byte_data.length = 4 ∨
        byte_data.length = 8 then
      .ok (some (beToNat byte_data))
    else .ok none

/-- `epoch_to_bytes` (fake_tm_generator.py, lines 33-47):
`struct.pack('>Q', int(epoch.timestamp() * 1000))`; the record's epoch is
modelled by that millisecond count. -/
def epoch_to_bytes (ms : ℕ) : Except PyErr (List ℕ) :=
  if ms < 2 ^ 64 then .ok (natToBE 8 ms) else .error .structError

/-! ## The telemetry record and the encoder -/

/-- Schema dimension constants (`BitStringParser.__init__` and the encoder's
local constants: energy 16, azimuthal 7, incident 6, cycles 45,
electrodes 3). -/
def numEnergy : ℕ := 16
def numAzimuthal : ℕ := 7
def numIncident : ℕ := 6
def numCycles : ℕ := 45
def numElectrode : ℕ := 3

/-- The in-memory telemetry record handed to
`create_hex_bitstring_from_data`.  Multi-dimensional numpy arrays are
represented by their row-major flattening, in each field's own axis order —
exactly the order in which the encoder's nested `for` loops visit the
elements.  Epoch-valued fields store the uint64 millisecond counts; float
fields store binary64 patterns. -/
structure TelemetryRecord where
  epochs : List ℕ
  electron_counts : List ℕ
  bg_counts : List ℕ
  measure_energy : List ℕ
  output_hv : List ℕ
  datataking_time_start : List ℕ
  data_time_duration : List ℕ
  data_quality : List ℕ
deriving DecidableEq, Repr

/-- Exception-propagating `map` over a list (a Python `for` loop whose body
may raise). -/
def mapME {α β : Type} : List α → (α → Except PyErr β) → Except PyErr (List β)
  | [], _ => .ok []
  | a :: as, f =>
    match f a with
    | .error e => .error e
    | .ok b =>
      match mapME as f with
      | .error e => .error e
      | .ok bs => .ok (b :: bs)

/-- Indexing a numpy array (modelled as a flat list): out of range raises
`IndexError`. -/
def pyIndex (l : List ℕ) (k : ℕ) : Except PyErr ℕ :=
  match l.get? k with
  | some v => .ok v
  | none => .error .indexError

/-- `bytearray.extend(value_to_bytes(...))`: extending with `None` raises
`TypeError`. -/
def extendBytes (r : Except PyErr (Option (List ℕ))) : Except PyErr (List ℕ) :=
  match r with
  | .error e => .error e
  | .ok none => .error .typeError
  | .ok (some bs) => .ok bs

/-- The encoder's nested loops over a fixed index range with numpy indexing:
visit flat indices `first, first+1, ..., first+count-1` in order (the
row-major enumeration of the nested `for i/a/e/c` loops). -/
def encLoop (l : List ℕ) (first count : ℕ) (enc1 : ℕ → Except PyErr (List ℕ)) :
    Except PyErr (List (List ℕ)) :=
  match count with
  | 0 => .ok []
  | c + 1 =>
    match pyIndex l first with
    | .error e => .error e
    | .ok v =>
      match enc1 v with
      | .error e => .error e
      | .ok bs =>
        match encLoop l (first + 1) c enc1 with
        | .error e => .error e
        | .ok rest => .ok (bs :: rest)

/-- `create_hex_bitstring_from_data` (fake_tm_generator.py, lines 335-402):
append each field's bytes in the fixed order epochs, electron_counts,
bg_counts, measure_energy, output_hv, datataking_time_start,
data_time_duration, data_quality, then hex-encode.  The epoch-valued fields
and the duration field are iterated over the given sequences themselves; the
four gridded fields are iterated over the fixed schema index ranges with
numpy indexing. -/
def create_hex_bitstring_from_data (r : TelemetryRecord) :
    Except PyErr (List Char) :=
  match mapME r.epochs epoch_to_bytes with
  | .error e => .error e
  | .ok e1 =>
  match encLoop r.electron_counts 0
      (numIncident * numAzimuthal * numEnergy * numCycles)
      (fun v => extendBytes (value_to_bytes v 2 false)) with
  | .error e => .error e
  | .ok e2 =>
  match encLoop r.bg_counts 0
      (numIncident * numAzimuthal * numEnergy * numCycles)
      (fun v => extendBytes (value_to_bytes v 2 false)) with
  | .error e => .error e
  | .ok e3 =>
  match encLoop r.measure_energy 0 (numEnergy * numCycles)
      (fun v => extendBytes (value_to_bytes v 4 true)) with
  | .error e => .error e
  | .ok e4 =>
  match encLoop r.output_hv 0
      (numElectrode * numEnergy * numIncident * numCycles)
      (fun v => extendBytes (value_to_bytes v 4 true)) with
  | .error e => .error e
  | .ok e5 =>
  match mapME r.datataking_time_start epoch_to_bytes with
  | .error e => .error e
  | .ok e6 =>
  match mapME r.data_time_duration
      (fun v => extendBytes (value_to_bytes v 4 true)) with
  | .error e => .error e
  | .ok e7 =>
  match encLoop r.data_quality 0
      (numEnergy * numAzimuthal * numIncident * numCycles)
      (fun v => extendBytes (value_to_bytes v 1 false)) with
  | .error e => .error e
  | .ok e8 =>
    .ok (hexEncodeBytes (e1.flatten ++ e2.flatten ++ e3.flatten ++
      e4.flatten ++ e5.flatten ++ e6.flatten ++ e7.flatten ++ e8.flatten))

/-! ## The decoder (`BitStringParser.parse_bitstring`, parser.py 67-286)

One monotone byte cursor `pos`; each field is read with Python slicing
`binary_data[pos:pos+w]` — a slice that reaches past the end is silently
*short*, and `bytes_to_value` then dispatches on the short length (this is
how the original parser behaves on truncated input).  The nested result
lists are kept in their flat row-major reading order, mirroring the record
representation. -/

/-- Python slice `bs[pos:pos+w]` (never raises; may be short or empty). -/
def pySlice (bs : List ℕ) (pos w : ℕ) : List ℕ := (bs.drop pos).take w

/-- One epoch entry from a slice: the parser calls `bytes_to_tt2000` and
then stores `int(dt.timestamp() * 1000)` with the datetime. -/
def msEntryOfSlice (off : ℤ) (bd : List ℕ) : Except PyErr (ℤ × NaiveDt) :=
  match bytes_to_tt2000 off bd with
  | .error e => .error e
  | .ok d => .ok (dtTimestampMs off d, d)

/-- The epoch-reading loop: `bytes_to_tt2000` on an 8-byte slice, then store
`timestamp_ms` and the datetime, advancing the cursor by 8. -/
def readEpochs (off : ℤ) (bs : List ℕ) :
    ℕ → ℕ → Except PyErr (List (ℤ × NaiveDt) × ℕ)
  | pos, 0 => .ok ([], pos)
  | pos, n + 1 =>
    match msEntryOfSlice off (pySlice bs pos 8) with
    | .error e => .error e
    | .ok entry =>
      match readEpochs off bs (pos + 8) n with
      | .error e => .error e
      | .ok (rest, p) => .ok (entry :: rest, p)

/-- The value-reading loop for a fixed element width: `bytes_to_value` on
each slice, appending whatever it returns (including `None`), advancing the
cursor by `w` each time. -/
def readVals (bs : List ℕ) (w : ℕ) (isF : Bool) :
    ℕ → ℕ → Except PyErr (List (Option ℕ) × ℕ)
  | pos, 0 => .ok ([], pos)
  | pos, n + 1 =>
    match bytes_to_value (pySlice bs pos w) isF with
    | .error e => .error e
    | .ok v =>
      match readVals bs w isF (pos + w) n with
      | .error e => .error e
      | .ok (rest, p) => .ok (v :: rest, p)

/-- The structured result of `parse_bitstring` (the value lists of the
result dictionary, in flat row-major order; epoch entries keep
`timestamp_ms` and the datetime that yields `iso_format`). -/
structure DecodedRecord where
  epochs : List (ℤ × NaiveDt)
  electron_counts : List (Option ℕ)
  bg_counts : List (Option ℕ)
  measure_energy : List (Option ℕ)
  output_hv : List (Option ℕ)
  datataking_time_start : List (ℤ × NaiveDt)
  data_time_duration : List (Option ℕ)
  data_quality : List (Option ℕ)
deriving DecidableEq, Repr

/-- `BitStringParser.parse_bitstring`: hex to bytes, then read the eight
fields in encoder order with one cursor.  There is no trailing-bytes check
after the last field. -/
def parse_bitstring (off : ℤ) (hex_string : List Char) :
    Except PyErr DecodedRecord :=
  match hexDecode hex_string with
  | .error e => .error e
  | .ok binary_data =>
  match readEpochs off binary_data 0 numCycles with
  | .error e => .error e
  | .ok (eps, p1) =>
  match readVals binary_data 2 false p1
      (numIncident * numAzimuthal * numEnergy * numCycles) with
  | .error e => .error e
  | .ok (ec, p2) =>
  match readVals binary_data 2 false p2
      (numIncident * numAzimuthal * numEnergy * numCycles) with
  | .error e => .error e
  | .ok (bg, p3) =>
  match readVals binary_data 4 true p3 (numEnergy * numCycles) with
  | .error e => .error e
  | .ok (me, p4) =>
  match readVals binary_data 4 true p4
      (numElectrode * numEnergy * numIncident * numCycles) with
  | .error e => .error e
  | .ok (hv, p5) =>
  match readEpochs off binary_data p5 numCycles with
  | .error e => .error e
  | .ok (dts, p6) =>
  match readVals binary_data 4 true p6 numCycles with
  | .error e => .error e
  | .ok (dur, p7) =>
  match readVals binary_data 1 false p7
      (numEnergy * numAzimuthal * numIncident * numCycles) with
  | .error e => .error e
  | .ok (dq, _) =>
    .ok ⟨eps, ec, bg, me, hv, dts, dur, dq⟩

/-! ## Inversion machinery -/

theorem flatMap_length_const {α : Type} (l : List α) (f : α → List ℕ) (w : ℕ)
    (h : ∀ x ∈ l, (f x).length = w) :
    (l.flatMap f).length = w * l.length := by
  induction l with
  | nil => simp
  | cons a as ih =>
    simp only [List.flatMap_cons, List.length_append, List.length_cons]
    rw [h a (by simp), ih (fun x hx => h x (by simp [hx]))]
    ring

theorem mapME_ok {α β : Type} (l : List α) (f : α → Except PyErr β)
    (g : α → β) (h : ∀ a ∈ l, f a = .ok (g a)) :
    mapME l f = .ok (l.map g) := by
  induction l with
  | nil => rfl
  | cons a as ih =>
    rw [mapME, h a (by simp), ih (fun x hx => h x (by simp [hx]))]
    rfl

theorem encLoop_take_drop (l : List ℕ) (enc1 : ℕ → Except PyErr (List ℕ)) :
    ∀ (count first : ℕ), first + count ≤ l.length →
      encLoop l first count enc1 = mapME ((l.drop first).take count) enc1 := by
  intro count
  induction count with
  | zero =>
    intro first _
    simp [encLoop, mapME]
  | succ c ih =>
    intro first hle
    have hf : first < l.length := by omega
    have hidx : pyIndex l first = .ok (l.get ⟨first, hf⟩) := by
      unfold pyIndex
      rw [List.get?_eq_get hf]
    have hdrop : l.drop first = l.get ⟨first, hf⟩ :: l.drop (first + 1) := by
      rw [List.drop_eq_getElem_cons hf]
      rfl
    rw [hdrop, List.take_succ_cons, mapME, encLoop, hidx]
    dsimp only
    cases henc : enc1 (l.get ⟨first, hf⟩) with
    | error e => rfl
    | ok bs =>
      rw [ih (first + 1) (by omega)]
      simp only []
      cases mapME (List.take c (List.drop (first + 1) l)) enc1 <;> rfl

theorem encLoop_eq_mapME (l : List ℕ) (n : ℕ) (hn : l.length = n)
    (enc1 : ℕ → Except PyErr (List ℕ)) :
    encLoop l 0 n enc1 = mapME l enc1 := by
  rw [encLoop_take_drop l enc1 n 0 (by omega)]
  subst hn
  rw [List.drop_zero, List.take_length]

/-! Element-level pack/unpack facts. -/

theorem value_to_bytes_uint (v w : ℕ) (hw : w = 1 ∨ w = 2 ∨ w = 4 ∨ w = 8)
    (hv : v < 256 ^ w) :
    value_to_bytes v w false = .ok (some (natToBE w v)) := by
  rcases hw with rfl | rfl | rfl | rfl <;>
    · unfold value_to_bytes
      norm_num
      intro h
      exact absurd hv (by norm_num at h ⊢; omega)

theorem bytes_to_value_uint (v w : ℕ) (hw : w = 1 ∨ w = 2 ∨ w = 4 ∨ w = 8)
    (hv : v < 256 ^ w) :
    bytes_to_value (natToBE w v) false = .ok (some v) := by
  unfold bytes_to_value
  rw [natToBE_length]
  rcases hw with rfl | rfl | rfl | rfl <;>
    simp [beToNat_natToBE _ _ hv]

/-- A value satisfying `isF32` never triggers the `'>f'` overflow error. -/
theorem isF32_no_overflow (v : ℕ) (h : isF32 v) : f32PackOverflows v = false := by
  obtain ⟨hlt, hrt⟩ := h
  unfold f32PackOverflows
  rw [decide_eq_false_iff_not]
  rintro ⟨hne, hinf⟩
  set p := narrowF64F32 v with hp
  have hm : p % 2 ^ 31 = 255 * 2 ^ 23 := hinf
  have hsplit : p = p / 2 ^ 31 * 2 ^ 31 + 255 * 2 ^ 23 := by omega
  have hwid : widenF32F64 p = p / 2 ^ 31 * 2 ^ 63 + 2047 * 2 ^ 52 := by
    unfold widenF32F64
    have he : p / 2 ^ 23 % 2 ^ 8 = 255 := by omega
    have hm0 : p % 2 ^ 23 = 0 := by omega
    rw [he, hm0]
    norm_num
  have hefield : v / 2 ^ 52 % 2 ^ 11 = 2047 := by
    rw [← hrt, hwid]
    have h31 : p / 2 ^ 31 ≤ 1 ∨ 2 ≤ p / 2 ^ 31 := by omega
    rcases h31 with h1 | h2
    · interval_cases (p / 2 ^ 31) <;> norm_num
    · exfalso
      have : 2 ^ 64 ≤ p / 2 ^ 31 * 2 ^ 63 + 2047 * 2 ^ 52 := by nlinarith
      rw [← hwid, hrt] at this
      omega
  exact hne hefield

/-- A value satisfying `isF32` has a 32-bit narrowing (needed for the byte
round trip). -/
theorem isF32_narrow_lt (v : ℕ) (h : isF32 v) : narrowF64F32 v < 2 ^ 32 := by
  obtain ⟨hlt, hrt⟩ := h
  by_contra hge
  push_neg at hge
  have hs : 2 ≤ narrowF64F32 v / 2 ^ 31 := by omega
  have hbig : 2 ^ 64 ≤ widenF32F64 (narrowF64F32 v) := by
    simp only [widenF32F64]
    split
    · nlinarith [Nat.zero_le ((narrowF64F32 v) % 2 ^ 23 * 2 ^ 29)]
    · split
      · split
        · nlinarith
        · nlinarith [Nat.zero_le (((narrowF64F32 v) % 2 ^ 23 -
            2 ^ natLog2 ((narrowF64F32 v) % 2 ^ 23)) *
            2 ^ (52 - natLog2 ((narrowF64F32 v) % 2 ^ 23)))]
      · nlinarith [Nat.zero_le ((narrowF64F32 v) % 2 ^ 23 * 2 ^ 29)]
  rw [hrt] at hbig
  omega

theorem value_to_bytes_f32 (v : ℕ) (h : isF32 v) :
    value_to_bytes v 4 true = .ok (some (natToBE 4 (narrowF64F32 v))) := by
  unfold value_to_bytes
  rw [isF32_no_overflow v h]
  norm_num

theorem bytes_to_value_f32 (v : ℕ) (h : isF32 v) :
    bytes_to_value (natToBE 4 (narrowF64F32 v)) true = .ok (some v) := by
  unfold bytes_to_value
  rw [natToBE_length]
  norm_num
  rw [beToNat_natToBE 4 _ (by exact_mod_cast isF32_narrow_lt v h), h.2]

theorem pySlice_exact (pre mid rest : List ℕ) (w : ℕ) (hmid : mid.length = w) :
    pySlice (pre ++ (mid ++ rest)) pre.length w = mid := by
  unfold pySlice
  rw [List.drop_left, ← hmid, List.take_left]

theorem readVals_append (w : ℕ) (isF : Bool) (enc1 : ℕ → List ℕ)
    (dec1 : ℕ → Option ℕ) :
    ∀ (vals : List ℕ) (pre suf bs : List ℕ),
      bs = pre ++ vals.flatMap enc1 ++ suf →
      (∀ v ∈ vals, (enc1 v).length = w) →
      (∀ v ∈ vals, bytes_to_value (enc1 v) isF = .ok (dec1 v)) →
      readVals bs w isF pre.length vals.length =
        .ok (vals.map dec1, pre.length + w * vals.length) := by
  intro vals
  induction vals with
  | nil =>
    intro pre suf bs _ _ _
    simp [readVals]
  | cons v vs ih =>
    intro pre suf bs hbs hlen hdec
    have hassoc : bs = pre ++ (enc1 v ++ (vs.flatMap enc1 ++ suf)) := by
      rw [hbs]; simp [List.append_assoc]
    rw [List.length_cons, readVals]
    have hslice : pySlice bs pre.length w = enc1 v := by
      rw [hassoc]
      exact pySlice_exact pre (enc1 v) (vs.flatMap enc1 ++ suf) w
        (hlen v (by simp))
    rw [hslice, hdec v (by simp)]
    have hpre' : (pre ++ enc1 v).length = pre.length + w := by
      rw [List.length_append, hlen v (by simp)]
    have hbs' : bs = (pre ++ enc1 v) ++ vs.flatMap enc1 ++ suf := by
      rw [hassoc]; simp [List.append_assoc]
    have := ih (pre ++ enc1 v) suf bs hbs'
      (fun x hx => hlen x (by simp [hx]))
      (fun x hx => hdec x (by simp [hx]))
    rw [hpre'] at this
    rw [this]
    have harith : pre.length + w * (vs.length + 1) =
        pre.length + w + w * vs.length := by ring
    rw [harith]
    rfl

theorem msEntryOfSlice_natToBE (off : ℤ) (ms : ℕ) :
    msEntryOfSlice off (natToBE 8 ms) = msEpochEntry off ms := rfl

theorem readEpochs_append (off : ℤ) (ent : ℕ → ℤ × NaiveDt) :
    ∀ (vals : List ℕ) (pre suf bs : List ℕ),
      bs = pre ++ vals.flatMap (natToBE 8) ++ suf →
      (∀ ms ∈ vals, msEpochEntry off ms = .ok (ent ms)) →
      readEpochs off bs pre.length vals.length =
        .ok (vals.map ent, pre.length + 8 * vals.length) := by
  intro vals
  induction vals with
  | nil =>
    intro pre suf bs _ _
    simp [readEpochs]
  | cons v vs ih =>
    intro pre suf bs hbs hent
    have hassoc : bs = pre ++ (natToBE 8 v ++ (vs.flatMap (natToBE 8) ++ suf)) := by
      rw [hbs]; simp [List.append_assoc]
    rw [List.length_cons, readEpochs]
    have hslice : pySlice bs pre.length 8 = natToBE 8 v := by
      rw [hassoc]
      exact pySlice_exact pre (natToBE 8 v) (vs.flatMap (natToBE 8) ++ suf) 8
        (natToBE_length 8 v)
    have hentry : msEntryOfSlice off (pySlice bs pre.length 8) = .ok (ent v) := by
      rw [hslice, msEntryOfSlice_natToBE]
      exact hent v (by simp)
    rw [hentry]
    have hpre' : (pre ++ natToBE 8 v).length = pre.length + 8 := by
      rw [List.length_append, natToBE_length]
    have hbs' : bs = (pre ++ natToBE 8 v) ++ vs.flatMap (natToBE 8) ++ suf := by
      rw [hassoc]; simp [List.append_assoc]
    have := ih (pre ++ natToBE 8 v) suf bs hbs'
      (fun x hx => hent x (by simp [hx]))
    rw [hpre'] at this
    rw [this]
    have harith : pre.length + 8 * (vs.length + 1) =
        pre.length + 8 + 8 * vs.length := by ring
    rw [harith]
    rfl

/-! ## The byte image of a record and the encoder/decoder glue -/

/-- The byte stream `create_hex_bitstring_from_data` produces when every
element packs successfully: the eight fields' bytes concatenated in order. -/
def encBytes (r : TelemetryRecord) : List ℕ :=
  r.epochs.flatMap (natToBE 8) ++
  r.electron_counts.flatMap (natToBE 2) ++
  r.bg_counts.flatMap (natToBE 2) ++
  r.measure_energy.flatMap (fun v => natToBE 4 (narrowF64F32 v)) ++
  r.output_hv.flatMap (fun v => natToBE 4 (narrowF64F32 v)) ++
  r.datataking_time_start.flatMap (natToBE 8) ++
  r.data_time_duration.flatMap (fun v => natToBE 4 (narrowF64F32 v)) ++
  r.data_quality.flatMap (natToBE 1)

/-- The gridded fields have exactly the schema shapes (counted in flat
row-major length). -/
def gridShapesOK (r : TelemetryRecord) : Prop :=
  r.electron_counts.length = numIncident * numAzimuthal * numEnergy * numCycles ∧
  r.bg_counts.length = numIncident * numAzimuthal * numEnergy * numCycles ∧
  r.measure_energy.length = numEnergy * numCycles ∧
  r.output_hv.length = numElectrode * numEnergy * numIncident * numCycles ∧
  r.data_quality.length = numEnergy * numAzimuthal * numIncident * numCycles

/-- Every field value fits its schema element type: uint16/uint8/uint64 in
range, float fields exactly representable in binary32. -/
def valuesOK (r : TelemetryRecord) : Prop :=
  (∀ v ∈ r.epochs, v < 2 ^ 64) ∧
  (∀ v ∈ r.electron_counts, v < 2 ^ 16) ∧
  (∀ v ∈ r.bg_counts, v < 2 ^ 16) ∧
  (∀ v ∈ r.measure_energy, isF32 v) ∧
  (∀ v ∈ r.output_hv, isF32 v) ∧
  (∀ v ∈ r.datataking_time_start, v < 2 ^ 64) ∧
  (∀ v ∈ r.data_time_duration, isF32 v) ∧
  (∀ v ∈ r.data_quality, v < 2 ^ 8)

/-- Full schema conformance: the record has exactly the schema shapes and
schema-typed values. -/
def conformsSchema (r : TelemetryRecord) : Prop :=
  gridShapesOK r ∧ valuesOK r ∧
  r.epochs.length = numCycles ∧
  r.datataking_time_start.length = numCycles ∧
  r.data_time_duration.length = numCycles

theorem extend_uint (v w : ℕ) (hw : w = 1 ∨ w = 2 ∨ w = 4 ∨ w = 8)
    (hv : v < 256 ^ w) :
    extendBytes (value_to_bytes v w false) = .ok (natToBE w v) := by
  rw [value_to_bytes_uint v w hw hv]
  rfl

theorem extend_f32 (v : ℕ) (h : isF32 v) :
    extendBytes (value_to_bytes v 4 true) = .ok (natToBE 4 (narrowF64F32 v)) := by
  rw [value_to_bytes_f32 v h]
  rfl

theorem epoch_to_bytes_ok (v : ℕ) (h : v < 2 ^ 64) :
    epoch_to_bytes v = .ok (natToBE 8 v) := by
  unfold epoch_to_bytes
  rw [if_pos h]

/-- Successful encoding: with in-range values and exactly-shaped gridded
fields, the encoder returns the hex of `encBytes` (note: no constraint at
all on the lengths of `epochs`, `datataking_time_start`,
`data_time_duration` — those loops iterate whatever sequence they get). -/
theorem create_hex_ok (r : TelemetryRecord) (hg : gridShapesOK r)
    (hv : valuesOK r) :
    create_hex_bitstring_from_data r = .ok (hexEncodeBytes (encBytes r)) := by
  obtain ⟨g1, g2, g3, g4, g5⟩ := hg
  obtain ⟨v1, v2, v3, v4, v5, v6, v7, v8⟩ := hv
  have h1 : mapME r.epochs epoch_to_bytes = .ok (r.epochs.map (natToBE 8)) :=
    mapME_ok _ _ _ (fun a ha => epoch_to_bytes_ok a (v1 a ha))
  have h2 : encLoop r.electron_counts 0
      (numIncident * numAzimuthal * numEnergy * numCycles)
      (fun v => extendBytes (value_to_bytes v 2 false)) =
      .ok (r.electron_counts.map (natToBE 2)) := by
    rw [encLoop_eq_mapME _ _ g1]
    exact mapME_ok _ _ _ (fun a ha =>
      extend_uint a 2 (by norm_num) (by have := v2 a ha; norm_num at this ⊢; omega))
  have h3 : encLoop r.bg_counts 0
      (numIncident * numAzimuthal * numEnergy * numCycles)
      (fun v => extendBytes (value_to_bytes v 2 false)) =
      .ok (r.bg_counts.map (natToBE 2)) := by
    rw [encLoop_eq_mapME _ _ g2]
    exact mapME_ok _ _ _ (fun a ha =>
      extend_uint a 2 (by norm_num) (by have := v3 a ha; norm_num at this ⊢; omega))
  have h4 : encLoop r.measure_energy 0 (numEnergy * numCycles)
      (fun v => extendBytes (value_to_bytes v 4 true)) =
      .ok (r.measure_energy.map (fun v => natToBE 4 (narrowF64F32 v))) := by
    rw [encLoop_eq_mapME _ _ g3]
    exact mapME_ok _ _ _ (fun a ha => extend_f32 a (v4 a ha))
  have h5 : encLoop r.output_hv 0
      (numElectrode * numEnergy * numIncident * numCycles)
      (fun v => extendBytes (value_to_bytes v 4 true)) =
      .ok (r.output_hv.map (fun v => natToBE 4 (narrowF64F32 v))) := by
    rw [encLoop_eq_mapME _ _ g4]
    exact mapME_ok _ _ _ (fun a ha => extend_f32 a (v5 a ha))
  have h6 : mapME r.datataking_time_start epoch_to_bytes =
      .ok (r.datataking_time_start.map (natToBE 8)) :=
    mapME_ok _ _ _ (fun a ha => epoch_to_bytes_ok a (v6 a ha))
  have h7 : mapME r.data_time_duration
      (fun v => extendBytes (value_to_bytes v 4 true)) =
      .ok (r.data_time_duration.map (fun v => natToBE 4 (narrowF64F32 v))) :=
    mapME_ok _ _ _ (fun a ha => extend_f32 a (v7 a ha))
  have h8 : encLoop r.data_quality 0
      (numEnergy * numAzimuthal * numIncident * numCycles)
      (fun v => extendBytes (value_to_bytes v 1 false)) =
      .ok (r.data_quality.map (natToBE 1)) := by
    rw [encLoop_eq_mapME _ _ g5]
    exact mapME_ok _ _ _ (fun a ha =>
      extend_uint a 1 (by norm_num) (by have := v8 a ha; norm_num at this ⊢; omega))
  unfold create_hex_bitstring_from_data
  rw [h1, h2, h3, h4, h5, h6, h7, h8]
  dsimp only
  unfold encBytes
  rw [List.flatMap_def, List.flatMap_def, List.flatMap_def, List.flatMap_def,
    List.flatMap_def, List.flatMap_def, List.flatMap_def, List.flatMap_def]

theorem encBytes_lt (r : TelemetryRecord) : ∀ b ∈ encBytes r, b < 256 := by
  intro b hb
  unfold encBytes at hb
  simp only [List.mem_append, List.mem_flatMap] at hb
  rcases hb with ((((((h | h) | h) | h) | h) | h) | h) | h <;>
    · obtain ⟨x, -, hx⟩ := h
      exact natToBE_lt _ _ b hx

/-- The central inversion theorem: parsing the hex encoding of a conforming
record's byte image (with any trailing byte suffix, which the parser never
looks at) reconstructs every field, the epoch fields through the
`ent` entry map realised by `msEpochEntry`. -/
theorem parse_encBytes (off : ℤ) (r : TelemetryRecord) (suffix : List ℕ)
    (hg : gridShapesOK r) (hv : valuesOK r)
    (hep : r.epochs.length = numCycles)
    (hst : r.datataking_time_start.length = numCycles)
    (hdur : r.data_time_duration.length = numCycles)
    (hsuf : ∀ b ∈ suffix, b < 256)
    (ent : ℕ → ℤ × NaiveDt)
    (hentE : ∀ ms ∈ r.epochs, msEpochEntry off ms = .ok (ent ms))
    (hentS : ∀ ms ∈ r.datataking_time_start, msEpochEntry off ms = .ok (ent ms)) :
    parse_bitstring off (hexEncodeBytes (encBytes r ++ suffix)) =
      .ok ⟨r.epochs.map ent, r.electron_counts.map some, r.bg_counts.map some,
        r.measure_energy.map some, r.output_hv.map some,
        r.datataking_time_start.map ent, r.data_time_duration.map some,
        r.data_quality.map some⟩ := by
  obtain ⟨g1, g2, g3, g4, g5⟩ := hg
  obtain ⟨v1, v2, v3, v4, v5, v6, v7, v8⟩ := hv
  set A := r.epochs.flatMap (natToBE 8) with hAdef
  set B := r.electron_counts.flatMap (natToBE 2) with hBdef
  set C := r.bg_counts.flatMap (natToBE 2) with hCdef
  set D := r.measure_energy.flatMap (fun v => natToBE 4 (narrowF64F32 v)) with hDdef
  set E := r.output_hv.flatMap (fun v => natToBE 4 (narrowF64F32 v)) with hEdef
  set F := r.datataking_time_start.flatMap (natToBE 8) with hFdef
  set G := r.data_time_duration.flatMap (fun v => natToBE 4 (narrowF64F32 v)) with hGdef
  set H := r.data_quality.flatMap (natToBE 1) with hHdef
  set bs := encBytes r ++ suffix with hbsdef
  have hbseq : bs = A ++ (B ++ (C ++ (D ++ (E ++ (F ++ (G ++ (H ++ suffix))))))) := by
    rw [hbsdef]
    unfold encBytes
    simp [List.append_assoc]
  have lA : A.length = 360 := by
    rw [hAdef, flatMap_length_const _ _ 8 (fun x _ => natToBE_length 8 x), hep]
    norm_num [numCycles]
  have lB : B.length = 60480 := by
    rw [hBdef, flatMap_length_const _ _ 2 (fun x _ => natToBE_length 2 x), g1]
    norm_num [numIncident, numAzimuthal, numEnergy, numCycles]
  have lC : C.length = 60480 := by
    rw [hCdef, flatMap_length_const _ _ 2 (fun x _ => natToBE_length 2 x), g2]
    norm_num [numIncident, numAzimuthal, numEnergy, numCycles]
  have lD : D.length = 2880 := by
    rw [hDdef, flatMap_length_const _ _ 4 (fun x _ => natToBE_length 4 _), g3]
    norm_num [numEnergy, numCycles]
  have lE : E.length = 51840 := by
    rw [hEdef, flatMap_length_const _ _ 4 (fun x _ => natToBE_length 4 _), g4]
    norm_num [numElectrode, numEnergy, numIncident, numCycles]
  have lF : F.length = 360 := by
    rw [hFdef, flatMap_length_const _ _ 8 (fun x _ => natToBE_length 8 x), hst]
    norm_num [numCycles]
  have lG : G.length = 180 := by
    rw [hGdef, flatMap_length_const _ _ 4 (fun x _ => natToBE_length 4 _), hdur]
    norm_num [numCycles]
  have hlt : ∀ b ∈ bs, b < 256 := by
    intro b hb
    rw [hbsdef] at hb
    rcases List.mem_append.mp hb with h | h
    · exact encBytes_lt r b h
    · exact hsuf b h
  have hhex : hexDecode (hexEncodeBytes bs) = .ok bs :=
    hexDecode_hexEncodeBytes bs hlt
  -- field reads
  have h1 := readEpochs_append off ent r.epochs [] (B ++ (C ++ (D ++ (E ++
      (F ++ (G ++ (H ++ suffix))))))) bs (by simpa using hbseq) hentE
  rw [hep] at h1
  simp only [List.length_nil, Nat.zero_add] at h1
  norm_num [numCycles] at h1
  have h2 := readVals_append 2 false (natToBE 2) some r.electron_counts A
      (C ++ (D ++ (E ++ (F ++ (G ++ (H ++ suffix)))))) bs
      (by rw [hbseq, hBdef]; simp [List.append_assoc])
      (fun x _ => natToBE_length 2 x)
      (fun x hx => bytes_to_value_uint x 2 (by norm_num)
        (by have := v2 x hx; norm_num at this ⊢; omega))
  rw [lA, g1] at h2
  norm_num [numIncident, numAzimuthal, numEnergy, numCycles] at h2
  have h3 := readVals_append 2 false (natToBE 2) some r.bg_counts (A ++ B)
      (D ++ (E ++ (F ++ (G ++ (H ++ suffix))))) bs
      (by rw [hbseq, hCdef]; simp [List.append_assoc])
      (fun x _ => natToBE_length 2 x)
      (fun x hx => bytes_to_value_uint x 2 (by norm_num)
        (by have := v3 x hx; norm_num at this ⊢; omega))
  rw [List.length_append, lA, lB, g2] at h3
  norm_num [numIncident, numAzimuthal, numEnergy, numCycles] at h3
  have h4 := readVals_append 4 true (fun v => natToBE 4 (narrowF64F32 v)) some
      r.measure_energy (A ++ B ++ C)
      (E ++ (F ++ (G ++ (H ++ suffix)))) bs
      (by rw [hbseq, hDdef]; simp [List.append_assoc])
      (fun x _ => natToBE_length 4 _)
      (fun x hx => bytes_to_value_f32 x (v4 x hx))
  rw [List.length_append, List.length_append, lA, lB, lC, g3] at h4
  norm_num [numEnergy, numCycles] at h4
  have h5 := readVals_append 4 true (fun v => natToBE 4 (narrowF64F32 v)) some
      r.output_hv (A ++ B ++ C ++ D)
      (F ++ (G ++ (H ++ suffix))) bs
      (by rw [hbseq, hEdef]; simp [List.append_assoc])
      (fun x _ => natToBE_length 4 _)
      (fun x hx => bytes_to_value_f32 x (v5 x hx))
  rw [List.length_append, List.length_append, List.length_append,
    lA, lB, lC, lD, g4] at h5
  norm_num [numElectrode, numEnergy, numIncident, numCycles] at h5
  have h6 := readEpochs_append off ent r.datataking_time_start
      (A ++ B ++ C ++ D ++ E) (G ++ (H ++ suffix)) bs
      (by rw [hbseq, hFdef]; simp [List.append_assoc]) hentS
  rw [List.length_append, List.length_append, List.length_append,
    List.length_append, lA, lB, lC, lD, lE, hst] at h6
  norm_num [numCycles] at h6
  have h7 := readVals_append 4 true (fun v => natToBE 4 (narrowF64F32 v)) some
      r.data_time_duration (A ++ B ++ C ++ D ++ E ++ F)
      (H ++ suffix) bs
      (by rw [hbseq, hGdef]; simp [List.append_assoc])
      (fun x _ => natToBE_length 4 _)
      (fun x hx => bytes_to_value_f32 x (v7 x hx))
  rw [List.length_append, List.length_append, List.length_append,
    List.length_append, List.length_append, lA, lB, lC, lD, lE, lF, hdur] at h7
  norm_num [numCycles] at h7
  have h8 := readVals_append 1 false (natToBE 1) some r.data_quality
      (A ++ B ++ C ++ D ++ E ++ F ++ G) suffix bs
      (by rw [hbseq, hHdef]; simp [List.append_assoc])
      (fun x _ => natToBE_length 1 x)
      (fun x hx => bytes_to_value_uint x 1 (by norm_num)
        (by have := v8 x hx; norm_num at this ⊢; omega))
  rw [List.length_append, List.length_append, List.length_append,
    List.length_append, List.length_append, List.length_append,
    lA, lB, lC, lD, lE, lF, lG, g5] at h8
  norm_num [numEnergy, numAzimuthal, numIncident, numCycles] at h8
  unfold parse_bitstring
  rw [hhex]
  dsimp only
  norm_num [numCycles, numEnergy, numAzimuthal, numIncident, numElectrode]
  rw [h1]
  dsimp only
  rw [h2]
  dsimp only
  rw [h3]
  dsimp only
  rw [h4]
  dsimp only
  rw [h5]
  dsimp only
  rw [h6]
  dsimp only
  rw [h7]
  dsimp only
  rw [h8]

theorem encBytes_length (r : TelemetryRecord) :
    (encBytes r).length =
      8 * r.epochs.length + 2 * r.electron_counts.length +
      2 * r.bg_counts.length + 4 * r.measure_energy.length +
      4 * r.output_hv.length + 8 * r.datataking_time_start.length +
      4 * r.data_time_duration.length + r.data_quality.length := by
  unfold encBytes
  simp only [List.length_append]
  rw [flatMap_length_const _ _ 8 (fun x _ => natToBE_length 8 x),
    flatMap_length_const _ _ 2 (fun x _ => natToBE_length 2 x),
    flatMap_length_const _ _ 2 (fun x _ => natToBE_length 2 x),
    flatMap_length_const _ _ 4 (fun x _ => natToBE_length 4 _),
    flatMap_length_const _ _ 4 (fun x _ => natToBE_length 4 _),
    flatMap_length_const _ _ 8 (fun x _ => natToBE_length 8 x),
    flatMap_length_const _ _ 4 (fun x _ => natToBE_length 4 _),
    flatMap_length_const _ _ 1 (fun x _ => natToBE_length 1 x)]
  ring

theorem pySlice_out (bs : List ℕ) (pos w : ℕ) (h : bs.length ≤ pos) :
    pySlice bs pos w = [] := by
  unfold pySlice
  rw [List.drop_eq_nil_of_le h, List.take_nil]

theorem readVals_split (bs : List ℕ) (w : ℕ) (isF : Bool) :
    ∀ (m : ℕ) (pos n : ℕ),
      readVals bs w isF pos (m + n) =
        match readVals bs w isF pos m with
        | .error e => .error e
        | .ok (vs, p) =>
          match readVals bs w isF p n with
          | .error e => .error e
          | .ok (vs2, p2) => .ok (vs ++ vs2, p2) := by
  intro m
  induction m with
  | zero =>
    intro pos n
    rw [Nat.zero_add, readVals]
    dsimp only
    cases h : readVals bs w isF pos n with
    | error e => rfl
    | ok vp =>
      obtain ⟨vs, p⟩ := vp
      simp
  | succ m ih =>
    intro pos n
    have hadd : m + 1 + n = (m + n) + 1 := by omega
    rw [hadd, readVals, readVals]
    cases hbv : bytes_to_value (pySlice bs pos w) isF with
    | error e => rfl
    | ok v =>
      rw [ih (pos + w) n]
      cases h1 : readVals bs w isF (pos + w) m with
      | error e => rfl
      | ok vp =>
        obtain ⟨vs, p⟩ := vp
        dsimp only
        cases h2 : readVals bs w isF p n with
        | error e => rfl
        | ok vp2 =>
          obtain ⟨vs2, p2⟩ := vp2
          rfl

/-! ## Container text format (`BitStringParser.parse_multiple_bitstrings`,
parser.py 288-343)

The function scans the file line by line (each line `.strip()`ed): a line
starting with the literal `Bitstring` flushes the pending entry and starts a
new one whose index is `int(line.split()[1].replace(":", ""))` — an
`IndexError`/`ValueError` there is caught, a warning printed, and the entry
skipped (`current_index = None`); other non-empty lines are appended to the
current payload only while an index is active; at end of input the pending
entry is flushed.  The model returns the `(index, payload)` pairs in flush
order; the source feeds each flushed payload to `parse_bitstring`, which is
an orthogonal per-entry step. -/

/-- Python `str.strip` whitespace set. -/
def isSpaceCh (c : Char) : Bool :=
  c = ' ' ∨ c = '\t' ∨ c = '\n' ∨ c = '\r' ∨ c = '\x0b' ∨ c = '\x0c'

/-- Python `str.strip()`. -/
def pyStrip (l : List Char) : List Char :=
  ((l.dropWhile isSpaceCh).reverse.dropWhile isSpaceCh).reverse

/-- Whitespace-run splitting (`str.split()` with no argument): no empty
tokens. -/
def splitWSAux : List Char → List Char → List (List Char)
  | [], acc => if acc = [] then [] else [acc.reverse]
  | c :: cs, acc =>
    if isSpaceCh c then
      if acc = [] then splitWSAux cs [] else acc.reverse :: splitWSAux cs []
    else splitWSAux cs (c :: acc)

def splitWS (l : List Char) : List (List Char) := splitWSAux l []

/-- `.replace(":", "")`. -/
def removeColons (l : List Char) : List Char := l.filter (fun c => c ≠ ':')

def digitVal (c : Char) : Option ℕ :=
  if '0' ≤ c ∧ c ≤ '9' then some (c.toNat - 48) else none

/-- Digits with single underscores between digits (Python `int` grammar for
decimal literals; non-ASCII digits are not modelled). -/
def parseDigitsAux : List Char → ℕ → Option ℕ
  | [], acc => some acc
  | '_' :: c :: cs, acc =>
    match digitVal c with
    | some d => parseDigitsAux cs (acc * 10 + d)
    | none => none
  | ['_'], _ => none
  | c :: cs, acc =>
    match digitVal c with
    | some d => parseDigitsAux cs (acc * 10 + d)
    | none => none

def parseDigitsFirst : List Char → Option ℕ
  | [] => none
  | c :: cs =>
    match digitVal c with
    | some d => parseDigitsAux cs d
    | none => none

/-- Python `int(str)`: optional surrounding whitespace, optional sign,
decimal digits. -/
def pyParseInt (l : List Char) : Option ℤ :=
  match pyStrip l with
  | '+' :: rest => (parseDigitsFirst rest).map (fun n => (n : ℤ))
  | '-' :: rest => (parseDigitsFirst rest).map (fun n => -(n : ℤ))
  | rest => (parseDigitsFirst rest).map (fun n => (n : ℤ))

def startsWithBitstring (l : List Char) : Bool :=
  "Bitstring".toList.isPrefixOf l

/-- `int(line.split()[1].replace(":", ""))` with `IndexError`/`ValueError`
collapsed to `none` (both are caught by the same `except` clause). -/
def headerIndex (l : List Char) : Option ℤ :=
  match splitWS l with
  | _ :: tok :: _ => pyParseInt (removeColons tok)
  | _ => none

/-- Parser state: flushed entries, current index, current payload. -/
structure CState where
  results : List (ℤ × List Char)
  idx : Option ℤ
  buf : List Char
deriving DecidableEq, Repr

/-- `if current_bitstring and current_index is not None:` flush. -/
def flushPending (s : CState) : List (ℤ × List Char) :=
  match s.idx with
  | some i => if s.buf = [] then s.results else s.results ++ [(i, s.buf)]
  | none => s.results

/-- One line of the loop body. -/
def stepLine (s : CState) (line : List Char) : CState :=
  let l := pyStrip line
  if startsWithBitstring l then
    match headerIndex l with
    | some i => ⟨flushPending s, some i, []⟩
    | none => ⟨flushPending s, none, []⟩
  else if l ≠ [] ∧ s.idx ≠ none then
    ⟨s.results, s.idx, s.buf ++ l⟩
  else s

/-- The whole loop plus the final flush. -/
def parse_multiple_bitstrings (lines : List (List Char)) : List (ℤ × List Char) :=
  flushPending (lines.foldl stepLine ⟨[], none, []⟩)

/-- A header line (starts with `Bitstring` after stripping) whose index
cannot be parsed. -/
def malformedHeader (line : List Char) : Prop :=
  startsWithBitstring (pyStrip line) = true ∧ headerIndex (pyStrip line) = none

instance (line : List Char) : Decidable (malformedHeader line) := by
  unfold malformedHeader; infer_instance

theorem stepLine_malformed (s : CState) (line : List Char)
    (h : malformedHeader line) : stepLine s line = ⟨flushPending s, none, []⟩ := by
  simp only [stepLine]
  rw [h.1]
  simp only [if_true]
  rw [h.2]

theorem stepLine_prepend (R : List (ℤ × List Char)) (X : CState)
    (l : List Char) :
    stepLine ⟨R ++ X.results, X.idx, X.buf⟩ l =
      ⟨R ++ (stepLine X l).results, (stepLine X l).idx, (stepLine X l).buf⟩ := by
  simp only [stepLine, flushPending]
  cases hidx : X.idx <;>
    · dsimp only
      split
      · split <;> dsimp only <;>
          first
          | (split_ifs <;> simp [hidx])
          | simp [hidx]
      · first
        | (split_ifs <;> simp [hidx])
        | simp [hidx]

theorem foldl_prepend (R : List (ℤ × List Char)) :
    ∀ (lines : List (List Char)) (X : CState),
      lines.foldl stepLine ⟨R ++ X.results, X.idx, X.buf⟩ =
        ⟨R ++ (lines.foldl stepLine X).results,
          (lines.foldl stepLine X).idx, (lines.foldl stepLine X).buf⟩ := by
  intro lines
  induction lines with
  | nil => intro X; rfl
  | cons l ls ih =>
    intro X
    rw [List.foldl_cons, List.foldl_cons, stepLine_prepend]
    exact ih (stepLine X l)

theorem flushPending_prepend (R : List (ℤ × List Char)) (X : CState) :
    flushPending ⟨R ++ X.results, X.idx, X.buf⟩ = R ++ flushPending X := by
  unfold flushPending
  cases hidx : X.idx <;> simp [hidx]
  split <;> simp

/-! ## Claim-level definitions -/

/-- Record equality across the round trip, as the spec states it: integer
fields exactly equal (epoch fields compared on the stored `timestamp_ms`),
float fields bit-exact. -/
def decodeAgrees (r : TelemetryRecord) (d : DecodedRecord) : Prop :=
  d.epochs.map Prod.fst = r.epochs.map Int.ofNat ∧
  d.electron_counts = r.electron_counts.map some ∧
  d.bg_counts = r.bg_counts.map some ∧
  d.measure_energy = r.measure_energy.map some ∧
  d.output_hv = r.output_hv.map some ∧
  d.datataking_time_start.map Prod.fst =
    r.datataking_time_start.map Int.ofNat ∧
  d.data_time_duration = r.data_time_duration.map some ∧
  d.data_quality = r.data_quality.map some

/-- `decode(encode(R)) = R`: encoding succeeds and decoding its output
reconstructs every field. -/
def roundTripExact (off : ℤ) (r : TelemetryRecord) : Prop :=
  ∃ hx d, create_hex_bitstring_from_data r = .ok hx ∧
    parse_bitstring off hx = .ok d ∧ decodeAgrees r d

/-- Every epoch-valued field holds a whole second (a multiple of 1000 ms)
inside the `datetime` range for the host offset — the regime in which the
parser's float timestamp path is exact. -/
def wholeSecondInstants (off : ℤ) (r : TelemetryRecord) : Prop :=
  ∀ ms ∈ r.epochs ++ r.datataking_time_start,
    1000 ∣ ms ∧ ms < 2 ^ 53 ∧
    -62135596800 ≤ ((ms / 1000 : ℕ) : ℤ) + off ∧
    ((ms / 1000 : ℕ) : ℤ) + off ≤ 253402300799

/-- The all-zero schema-conforming record. -/
def zeroRecord : TelemetryRecord where
  epochs := List.replicate numCycles 0
  electron_counts :=
    List.replicate (numIncident * numAzimuthal * numEnergy * numCycles) 0
  bg_counts :=
    List.replicate (numIncident * numAzimuthal * numEnergy * numCycles) 0
  measure_energy := List.replicate (numEnergy * numCycles) 0
  output_hv :=
    List.replicate (numElectrode * numEnergy * numIncident * numCycles) 0
  datataking_time_start := List.replicate numCycles 0
  data_time_duration := List.replicate numCycles 0
  data_quality :=
    List.replicate (numEnergy * numAzimuthal * numIncident * numCycles) 0

theorem conforms_zero : conformsSchema zeroRecord := by
  unfold conformsSchema gridShapesOK valuesOK zeroRecord
  refine ⟨⟨?_, ?_, ?_, ?_, ?_⟩, ⟨?_, ?_, ?_, ?_, ?_, ?_, ?_, ?_⟩, ?_, ?_, ?_⟩ <;>
    first
    | (intro v hv
       rw [List.eq_of_mem_replicate hv]
       with_unfolding_all decide)
    | simp

theorem conforms_destruct (r : TelemetryRecord) (hc : conformsSchema r) :
    gridShapesOK r ∧ valuesOK r ∧ r.epochs.length = numCycles ∧
      r.datataking_time_start.length = numCycles ∧
      r.data_time_duration.length = numCycles := hc

/-- The whole-second entry map realised by the parser. -/
theorem msEpochEntry_of_whole_second (off : ℤ) (ms : ℕ)
    (hm : 1000 ∣ ms ∧ ms < 2 ^ 53 ∧
      -62135596800 ≤ ((ms / 1000 : ℕ) : ℤ) + off ∧
      ((ms / 1000 : ℕ) : ℤ) + off ≤ 253402300799) :
    msEpochEntry off ms =
      .ok ((ms : ℤ), ⟨((ms / 1000 : ℕ) : ℤ) + off, 0⟩) := by
  obtain ⟨⟨k, rfl⟩, hlt, hlo, hhi⟩ := hm
  have hdiv : 1000 * k / 1000 = k := by omega
  rw [hdiv] at hlo hhi ⊢
  exact msEpochEntry_whole_second off k hlt hlo hhi

/-- Shared helper: the full round trip under whole-second epoch values. -/
theorem roundTrip_of_wholeSecond (off : ℤ) (r : TelemetryRecord)
    (hc : conformsSchema r) (hws : wholeSecondInstants off r) :
    roundTripExact off r := by
  obtain ⟨hg, hv, hep, hst, hdur⟩ := hc
  have hparse := parse_encBytes off r [] hg hv hep hst hdur (by simp)
    (fun ms => ((ms : ℤ), ⟨((ms / 1000 : ℕ) : ℤ) + off, 0⟩))
    (fun ms hm => msEpochEntry_of_whole_second off ms
      (hws ms (List.mem_append.mpr (Or.inl hm))))
    (fun ms hm => msEpochEntry_of_whole_second off ms
      (hws ms (List.mem_append.mpr (Or.inr hm))))
  rw [List.append_nil] at hparse
  refine ⟨hexEncodeBytes (encBytes r), _, create_hex_ok r hg hv, hparse, ?_⟩
  unfold decodeAgrees
  refine ⟨?_, rfl, rfl, rfl, rfl, ?_, rfl, rfl⟩ <;>
    · dsimp only
      rw [List.map_map]
      apply List.map_congr_left
      intro ms _
      rfl

/-- The record of the round-trip counterexample: all zero except the first
epoch, which is 1001 ms — a sub-second instant. -/
def cexRecord : TelemetryRecord :=
  { zeroRecord with epochs := 1001 :: List.replicate 44 0 }

theorem conforms_cex : conformsSchema cexRecord := by
  unfold conformsSchema gridShapesOK valuesOK cexRecord zeroRecord
  refine ⟨⟨?_, ?_, ?_, ?_, ?_⟩, ⟨?_, ?_, ?_, ?_, ?_, ?_, ?_, ?_⟩, ?_, ?_, ?_⟩ <;>
    first
    | (intro v hv
       rw [List.eq_of_mem_replicate hv]
       with_unfolding_all decide)
    | (intro v hv
       rcases List.mem_cons.mp hv with rfl | hv'
       · with_unfolding_all decide
       · rw [List.eq_of_mem_replicate hv']
         with_unfolding_all decide)
    | simp [numCycles]

/-- C1, the claim as stated, fails: the epoch value 1001 ms decodes to
1000 ms (`int(dt.timestamp() * 1000)` truncates), so `decode(encode(R))`
differs from `R` on an unsigned-integer field of a schema-conforming
record. -/
theorem claim1_counterexample :
    conformsSchema cexRecord ∧ ¬ roundTripExact 0 cexRecord := by
  refine ⟨conforms_cex, ?_⟩
  rintro ⟨hx, d, henc, hdec, hagree⟩
  obtain ⟨hg, hv, hep, hst, hdur⟩ := conforms_cex
  rw [create_hex_ok cexRecord hg hv] at henc
  injection henc with henc
  subst henc
  have hparse := parse_encBytes 0 cexRecord [] hg hv hep hst hdur (by simp)
    (fun ms => if ms = 1001 then ((1000 : ℤ), ⟨1, 1000⟩) else ((0 : ℤ), ⟨0, 0⟩))
    ?_ ?_
  · rw [List.append_nil] at hparse
    rw [hparse] at hdec
    injection hdec with hdec
    subst hdec
    have h1 := hagree.1
    simp only [cexRecord, zeroRecord] at h1
    rw [List.map_cons, List.map_cons, List.map_cons] at h1
    have hhead := List.head_eq_of_cons_eq h1
    simp at hhead
  · intro ms hm
    rcases List.mem_cons.mp hm with rfl | hm'
    · with_unfolding_all decide
    · rw [List.eq_of_mem_replicate hm']
      with_unfolding_all decide
  · intro ms hm
    simp only [cexRecord, zeroRecord] at hm
    rw [List.eq_of_mem_replicate hm]
    with_unfolding_all decide

/-! ## Claims C1 and C2 -/

/-- C1 (amended). For a schema-conforming record whose epoch-valued fields
hold whole-second instants (multiples of 1000 ms inside the datetime range),
`decode(encode(R))` equals `R`: exactly on every unsigned-integer field and
bit-exact on every float field.  (The amendment is forced by
`claim1_counterexample`: a sub-second epoch such as 1001 ms is decoded as
1000 ms by the parser's `int(dt.timestamp() * 1000)` float path.) -/
theorem claim1_theorem (off : ℤ) (r : TelemetryRecord)
    (hc : conformsSchema r) (hws : wholeSecondInstants off r) :
    roundTripExact off r :=
  roundTrip_of_wholeSecond off r hc hws

/-- C1 witness: the round trip at the all-zero conforming record. -/
theorem claim1_witness : roundTripExact 0 zeroRecord :=
  claim1_theorem 0 zeroRecord conforms_zero (by
    intro ms hm
    have h0 : ms = 0 := by
      rcases List.mem_append.mp hm with h | h <;>
        exact List.eq_of_mem_replicate h
    subst h0
    refine ⟨⟨0, by ring⟩, by norm_num, by norm_num, by norm_num⟩)

/-- C2. For every schema-conforming record the encoder emits exactly
206,820 bytes — 413,640 hex characters — independent of the field values. -/
theorem claim2_theorem (r : TelemetryRecord) (hc : conformsSchema r) :
    ∃ bsl, create_hex_bitstring_from_data r = .ok (hexEncodeBytes bsl) ∧
      bsl.length = 206820 ∧ (hexEncodeBytes bsl).length = 413640 := by
  obtain ⟨hg, hv, hep, hst, hdur⟩ := hc
  have hblen : (encBytes r).length = 206820 := by
    rw [encBytes_length, hep, hst, hdur, hg.1, hg.2.1, hg.2.2.1, hg.2.2.2.1,
      hg.2.2.2.2]
    norm_num [numCycles, numEnergy, numAzimuthal, numIncident, numElectrode]
  exact ⟨encBytes r, create_hex_ok r hg hv, hblen,
    by rw [hexEncodeBytes_length, hblen]⟩

/-- C2 witness: the fixed length at the all-zero conforming record. -/
theorem claim2_witness :
    ∃ bsl, create_hex_bitstring_from_data zeroRecord =
      .ok (hexEncodeBytes bsl) ∧
      bsl.length = 206820 ∧ (hexEncodeBytes bsl).length = 413640 :=
  claim2_theorem zeroRecord conforms_zero

/-! ## Claim C3: truncated input -/

/-- Shared helper: a buffer laid out like a conforming record but one
`data_quality` byte short decodes *successfully*: the final 1-byte slice is
empty, `bytes_to_value` falls through every length test and returns `None`,
and the parser stores it. -/
theorem parse_one_byte_short (off : ℤ) (r : TelemetryRecord)
    (hec : r.electron_counts.length =
      numIncident * numAzimuthal * numEnergy * numCycles)
    (hbg : r.bg_counts.length =
      numIncident * numAzimuthal * numEnergy * numCycles)
    (hme : r.measure_energy.length = numEnergy * numCycles)
    (hhv : r.output_hv.length =
      numElectrode * numEnergy * numIncident * numCycles)
    (hdq : r.data_quality.length =
      numEnergy * numAzimuthal * numIncident * numCycles - 1)
    (hv : valuesOK r)
    (hep : r.epochs.length = numCycles)
    (hst : r.datataking_time_start.length = numCycles)
    (hdur : r.data_time_duration.length = numCycles)
    (ent : ℕ → ℤ × NaiveDt)
    (hentE : ∀ ms ∈ r.epochs, msEpochEntry off ms = .ok (ent ms))
    (hentS : ∀ ms ∈ r.datataking_time_start,
      msEpochEntry off ms = .ok (ent ms)) :
    parse_bitstring off (hexEncodeBytes (encBytes r)) =
      .ok ⟨r.epochs.map ent, r.electron_counts.map some, r.bg_counts.map some,
        r.measure_energy.map some, r.output_hv.map some,
        r.datataking_time_start.map ent, r.data_time_duration.map some,
        r.data_quality.map some ++ [none]⟩ := by
  obtain ⟨v1, v2, v3, v4, v5, v6, v7, v8⟩ := hv
  set A := r.epochs.flatMap (natToBE 8) with hAdef
  set B := r.electron_counts.flatMap (natToBE 2) with hBdef
  set C := r.bg_counts.flatMap (natToBE 2) with hCdef
  set D := r.measure_energy.flatMap (fun v => natToBE 4 (narrowF64F32 v)) with hDdef
  set E := r.output_hv.flatMap (fun v => natToBE 4 (narrowF64F32 v)) with hEdef
  set F := r.datataking_time_start.flatMap (natToBE 8) with hFdef
  set G := r.data_time_duration.flatMap (fun v => natToBE 4 (narrowF64F32 v)) with hGdef
  set H := r.data_quality.flatMap (natToBE 1) with hHdef
  set bs := encBytes r with hbsdef
  have hbseq : bs = A ++ (B ++ (C ++ (D ++ (E ++ (F ++ (G ++ H)))))) := by
    rw [hbsdef]
    unfold encBytes
    simp [List.append_assoc]
  have lA : A.length = 360 := by
    rw [hAdef, flatMap_length_const _ _ 8 (fun x _ => natToBE_length 8 x), hep]
    norm_num [numCycles]
  have lB : B.length = 60480 := by
    rw [hBdef, flatMap_length_const _ _ 2 (fun x _ => natToBE_length 2 x), hec]
    norm_num [numIncident, numAzimuthal, numEnergy, numCycles]
  have lC : C.length = 60480 := by
    rw [hCdef, flatMap_length_const _ _ 2 (fun x _ => natToBE_length 2 x), hbg]
    norm_num [numIncident, numAzimuthal, numEnergy, numCycles]
  have lD : D.length = 2880 := by
    rw [hDdef, flatMap_length_const _ _ 4 (fun x _ => natToBE_length 4 _), hme]
    norm_num [numEnergy, numCycles]
  have lE : E.length = 51840 := by
    rw [hEdef, flatMap_length_const _ _ 4 (fun x _ => natToBE_length 4 _), hhv]
    norm_num [numElectrode, numEnergy, numIncident, numCycles]
  have lF : F.length = 360 := by
    rw [hFdef, flatMap_length_const _ _ 8 (fun x _ => natToBE_length 8 x), hst]
    norm_num [numCycles]
  have lG : G.length = 180 := by
    rw [hGdef, flatMap_length_const _ _ 4 (fun x _ => natToBE_length 4 _), hdur]
    norm_num [numCycles]
  have lH : H.length = 30239 := by
    rw [hHdef, flatMap_length_const _ _ 1 (fun x _ => natToBE_length 1 x), hdq]
    norm_num [numEnergy, numAzimuthal, numIncident, numCycles]
  have hbslen : bs.length = 206819 := by
    rw [hbseq]
    simp only [List.length_append]
    rw [lA, lB, lC, lD, lE, lF, lG, lH]
  have hlt : ∀ b ∈ bs, b < 256 := by
    intro b hb
    rw [hbsdef] at hb
    exact encBytes_lt r b hb
  have hhex : hexDecode (hexEncodeBytes bs) = .ok bs :=
    hexDecode_hexEncodeBytes bs hlt
  have h1 := readEpochs_append off ent r.epochs [] (B ++ (C ++ (D ++ (E ++
      (F ++ (G ++ H)))))) bs (by simpa using hbseq) hentE
  rw [hep] at h1
  simp only [List.length_nil, Nat.zero_add] at h1
  norm_num [numCycles] at h1
  have h2 := readVals_append 2 false (natToBE 2) some r.electron_counts A
      (C ++ (D ++ (E ++ (F ++ (G ++ H))))) bs
      (by rw [hbseq, hBdef]; simp [List.append_assoc])
      (fun x _ => natToBE_length 2 x)
      (fun x hx => bytes_to_value_uint x 2 (by norm_num)
        (by have := v2 x hx; norm_num at this ⊢; omega))
  rw [lA, hec] at h2
  norm_num [numIncident, numAzimuthal, numEnergy, numCycles] at h2
  have h3 := readVals_append 2 false (natToBE 2) some r.bg_counts (A ++ B)
      (D ++ (E ++ (F ++ (G ++ H)))) bs
      (by rw [hbseq, hCdef]; simp [List.append_assoc])
      (fun x _ => natToBE_length 2 x)
      (fun x hx => bytes_to_value_uint x 2 (by norm_num)
        (by have := v3 x hx; norm_num at this ⊢; omega))
  rw [List.length_append, lA, lB, hbg] at h3
  norm_num [numIncident, numAzimuthal, numEnergy, numCycles] at h3
  have h4 := readVals_append 4 true (fun v => natToBE 4 (narrowF64F32 v)) some
      r.measure_energy (A ++ B ++ C)
      (E ++ (F ++ (G ++ H))) bs
      (by rw [hbseq, hDdef]; simp [List.append_assoc])
      (fun x _ => natToBE_length 4 _)
      (fun x hx => bytes_to_value_f32 x (v4 x hx))
  rw [List.length_append, List.length_append, lA, lB, lC, hme] at h4
  norm_num [numEnergy, numCycles] at h4
  have h5 := readVals_append 4 true (fun v => natToBE 4 (narrowF64F32 v)) some
      r.output_hv (A ++ B ++ C ++ D)
      (F ++ (G ++ H)) bs
      (by rw [hbseq, hEdef]; simp [List.append_assoc])
      (fun x _ => natToBE_length 4 _)
      (fun x hx => bytes_to_value_f32 x (v5 x hx))
  rw [List.length_append, List.length_append, List.length_append,
    lA, lB, lC, lD, hhv] at h5
  norm_num [numElectrode, numEnergy, numIncident, numCycles] at h5
  have h6 := readEpochs_append off ent r.datataking_time_start
      (A ++ B ++ C ++ D ++ E) (G ++ H) bs
      (by rw [hbseq, hFdef]; simp [List.append_assoc]) hentS
  rw [List.length_append, List.length_append, List.length_append,
    List.length_append, lA, lB, lC, lD, lE, hst] at h6
  norm_num [numCycles] at h6
  have h7 := readVals_append 4 true (fun v => natToBE 4 (narrowF64F32 v)) some
      r.data_time_duration (A ++ B ++ C ++ D ++ E ++ F)
      H bs
      (by rw [hbseq, hGdef]; simp [List.append_assoc])
      (fun x _ => natToBE_length 4 _)
      (fun x hx => bytes_to_value_f32 x (v7 x hx))
  rw [List.length_append, List.length_append, List.length_append,
    List.length_append, List.length_append, lA, lB, lC, lD, lE, lF, hdur] at h7
  norm_num [numCycles] at h7
  have h8 := readVals_append 1 false (natToBE 1) some r.data_quality
      (A ++ B ++ C ++ D ++ E ++ F ++ G) [] bs
      (by rw [hbseq, hHdef]; simp [List.append_assoc])
      (fun x _ => natToBE_length 1 x)
      (fun x hx => bytes_to_value_uint x 1 (by norm_num)
        (by have := v8 x hx; norm_num at this ⊢; omega))
  rw [List.length_append, List.length_append, List.length_append,
    List.length_append, List.length_append, List.length_append,
    lA, lB, lC, lD, lE, lF, lG, hdq] at h8
  norm_num [numEnergy, numAzimuthal, numIncident, numCycles] at h8
  have hlast : readVals bs 1 false 206819 1 = .ok ([none], 206820) := by
    have hempty : pySlice bs 206819 1 = [] :=
      pySlice_out bs 206819 1 (by rw [hbslen])
    have hunf : readVals bs 1 false 206819 1 =
        (match bytes_to_value (pySlice bs 206819 1) false with
          | .error e => .error e
          | .ok v =>
            match readVals bs 1 false (206819 + 1) 0 with
            | .error e => .error e
            | .ok (rest, p) => .ok (v :: rest, p) :
          Except PyErr (List (Option ℕ) × ℕ)) := rfl
    rw [hunf, hempty]
    rfl
  unfold parse_bitstring
  rw [hhex]
  dsimp only
  norm_num [numCycles, numEnergy, numAzimuthal, numIncident, numElectrode]
  rw [h1]
  dsimp only
  rw [h2]
  dsimp only
  rw [h3]
  dsimp only
  rw [h4]
  dsimp only
  rw [h5]
  dsimp only
  rw [h6]
  dsimp only
  rw [h7]
  dsimp only
  rw [show (30240 : ℕ) = 30239 + 1 from by norm_num,
    readVals_split bs 1 false 30239 176580 1, h8]
  dsimp only
  rw [hlast]

/-- The trivial epoch-entry map for all-zero epoch fields. -/
def zeroEnt : ℕ → ℤ × NaiveDt := fun _ => ((0 : ℤ), ⟨0, 0⟩)

theorem zeroEnt_spec (off : ℤ) (hoff : off = 0) (ms : ℕ) (hms : ms = 0) :
    msEpochEntry off ms = .ok (zeroEnt ms) := by
  subst hoff hms
  with_unfolding_all decide

/-- A record laid out like the all-zero conforming record with the final
`data_quality` byte removed: its byte image is exactly one byte short of the
206,820-byte schema length. -/
def truncRecord : TelemetryRecord :=
  { zeroRecord with data_quality :=
      List.replicate (numEnergy * numAzimuthal * numIncident * numCycles - 1) 0 }

theorem valuesOK_trunc : valuesOK truncRecord := by
  unfold valuesOK truncRecord zeroRecord
  refine ⟨?_, ?_, ?_, ?_, ?_, ?_, ?_, ?_⟩ <;>
    (intro v hv
     rw [List.eq_of_mem_replicate hv]
     with_unfolding_all decide)

/-- C3 (amended).  The parser has no truncation check at all: a byte buffer
laid out like a conforming record but one `data_quality` byte short decodes
*successfully* into a partially-populated record whose final `data_quality`
element is `None` (the final 1-byte slice is empty and `bytes_to_value`
returns `None` for it).  No `TruncatedInputError` exists in the code, and no
error ever names the field being read: a truncation whose short slice
reaches a multi-byte `struct.unpack` — one of the 8-byte timestamp reads or
a float read (whose short slice falls into `struct.unpack` of `'>d'`) —
raises a bare `struct.error` instead (see the counterexample's float-cut
and timestamp-cut buffers). -/
theorem claim3_theorem (off : ℤ) (r : TelemetryRecord)
    (hec : r.electron_counts.length =
      numIncident * numAzimuthal * numEnergy * numCycles)
    (hbg : r.bg_counts.length =
      numIncident * numAzimuthal * numEnergy * numCycles)
    (hme : r.measure_energy.length = numEnergy * numCycles)
    (hhv : r.output_hv.length =
      numElectrode * numEnergy * numIncident * numCycles)
    (hdq : r.data_quality.length =
      numEnergy * numAzimuthal * numIncident * numCycles - 1)
    (hv : valuesOK r)
    (hep : r.epochs.length = numCycles)
    (hst : r.datataking_time_start.length = numCycles)
    (hdur : r.data_time_duration.length = numCycles)
    (ent : ℕ → ℤ × NaiveDt)
    (hentE : ∀ ms ∈ r.epochs, msEpochEntry off ms = .ok (ent ms))
    (hentS : ∀ ms ∈ r.datataking_time_start,
      msEpochEntry off ms = .ok (ent ms)) :
    (encBytes r).length = 206819 ∧
    parse_bitstring off (hexEncodeBytes (encBytes r)) =
      .ok ⟨r.epochs.map ent, r.electron_counts.map some, r.bg_counts.map some,
        r.measure_energy.map some, r.output_hv.map some,
        r.datataking_time_start.map ent, r.data_time_duration.map some,
        r.data_quality.map some ++ [none]⟩ := by
  constructor
  · rw [encBytes_length, hec, hbg, hme, hhv, hdq, hep, hst, hdur]
    norm_num [numCycles, numEnergy, numAzimuthal, numIncident, numElectrode]
  · exact parse_one_byte_short off r hec hbg hme hhv hdq hv hep hst hdur
      ent hentE hentS

/-- C3 witness: the concrete one-byte-short buffer of the all-zero record
decodes without error, its last `data_quality` entry read as `None`. -/
theorem claim3_witness :
    (encBytes truncRecord).length = 206819 ∧
    parse_bitstring 0 (hexEncodeBytes (encBytes truncRecord)) =
      .ok ⟨truncRecord.epochs.map zeroEnt,
        truncRecord.electron_counts.map some,
        truncRecord.bg_counts.map some,
        truncRecord.measure_energy.map some,
        truncRecord.output_hv.map some,
        truncRecord.datataking_time_start.map zeroEnt,
        truncRecord.data_time_duration.map some,
        truncRecord.data_quality.map some ++ [none]⟩ :=
  claim3_theorem 0 truncRecord
    (by simp [truncRecord, zeroRecord]) (by simp [truncRecord, zeroRecord])
    (by simp [truncRecord, zeroRecord]) (by simp [truncRecord, zeroRecord])
    (by simp [truncRecord, zeroRecord]) valuesOK_trunc
    (by simp [truncRecord, zeroRecord]) (by simp [truncRecord, zeroRecord])
    (by simp [truncRecord, zeroRecord]) zeroEnt
    (by
      intro ms hm
      simp only [truncRecord, zeroRecord] at hm
      exact zeroEnt_spec 0 rfl ms (List.eq_of_mem_replicate hm))
    (by
      intro ms hm
      simp only [truncRecord, zeroRecord] at hm
      exact zeroEnt_spec 0 rfl ms (List.eq_of_mem_replicate hm))

/-- A buffer cut two bytes into the `measure_energy` float region: the
zero record's epochs and both count fields, then two stray bytes. -/
def floatCutBytes : List ℕ :=
  zeroRecord.epochs.flatMap (natToBE 8) ++
  (zeroRecord.electron_counts.flatMap (natToBE 2) ++
  (zeroRecord.bg_counts.flatMap (natToBE 2) ++
  [0, 0]))

/-- Shared helper: a buffer holding the epoch bytes, both count fields and
then two stray bytes makes the first `measure_energy` slice two bytes long;
`bytes_to_value` falls into the 8-byte-double unpack and `struct.unpack`
raises `struct.error`, which aborts the parse. -/
theorem parse_cutME (off : ℤ) (r : TelemetryRecord) (hv : valuesOK r)
    (g1 : r.electron_counts.length =
      numIncident * numAzimuthal * numEnergy * numCycles)
    (g2 : r.bg_counts.length =
      numIncident * numAzimuthal * numEnergy * numCycles)
    (hep : r.epochs.length = numCycles)
    (ent : ℕ → ℤ × NaiveDt)
    (hentE : ∀ ms ∈ r.epochs, msEpochEntry off ms = .ok (ent ms)) :
    (r.epochs.flatMap (natToBE 8) ++
      (r.electron_counts.flatMap (natToBE 2) ++
      (r.bg_counts.flatMap (natToBE 2) ++ [0, 0]))).length = 121322 ∧
    parse_bitstring off (hexEncodeBytes
      (r.epochs.flatMap (natToBE 8) ++
      (r.electron_counts.flatMap (natToBE 2) ++
      (r.bg_counts.flatMap (natToBE 2) ++ [0, 0])))) =
      .error .structError := by
  obtain ⟨v1, v2, v3, v4, v5, v6, v7, v8⟩ := hv
  set A := r.epochs.flatMap (natToBE 8) with hAdef
  set B := r.electron_counts.flatMap (natToBE 2) with hBdef
  set C := r.bg_counts.flatMap (natToBE 2) with hCdef
  set bs := A ++ (B ++ (C ++ [0, 0])) with hbsdef
  have lA : A.length = 360 := by
    rw [hAdef, flatMap_length_const _ _ 8 (fun x _ => natToBE_length 8 x), hep]
    norm_num [numCycles]
  have lB : B.length = 60480 := by
    rw [hBdef, flatMap_length_const _ _ 2 (fun x _ => natToBE_length 2 x), g1]
    norm_num [numIncident, numAzimuthal, numEnergy, numCycles]
  have lC : C.length = 60480 := by
    rw [hCdef, flatMap_length_const _ _ 2 (fun x _ => natToBE_length 2 x), g2]
    norm_num [numIncident, numAzimuthal, numEnergy, numCycles]
  have hlen : bs.length = 121322 := by
    rw [hbsdef]
    simp only [List.length_append, lA, lB, lC]
    norm_num
  refine ⟨hlen, ?_⟩
  have hlt : ∀ b ∈ bs, b < 256 := by
    intro b hb
    rw [hbsdef, hAdef, hBdef, hCdef] at hb
    simp only [List.mem_append, List.mem_flatMap, List.mem_cons,
      List.not_mem_nil] at hb
    rcases hb with h | h | h | h
    · obtain ⟨x, -, hx⟩ := h
      exact natToBE_lt _ _ b hx
    · obtain ⟨x, -, hx⟩ := h
      exact natToBE_lt _ _ b hx
    · obtain ⟨x, -, hx⟩ := h
      exact natToBE_lt _ _ b hx
    · rcases h with rfl | rfl | h
      · omega
      · omega
      · exact absurd h (by simp)
  have hhex : hexDecode (hexEncodeBytes bs) = .ok bs :=
    hexDecode_hexEncodeBytes bs hlt
  have h1 := readEpochs_append off ent r.epochs []
    (B ++ (C ++ [0, 0])) bs (by rw [hbsdef, hAdef]; simp) hentE
  rw [hep] at h1
  simp only [List.length_nil, Nat.zero_add] at h1
  norm_num [numCycles] at h1
  have h2 := readVals_append 2 false (natToBE 2) some
    r.electron_counts A (C ++ [0, 0]) bs
    (by rw [hbsdef, hBdef]; simp [List.append_assoc])
    (fun x _ => natToBE_length 2 x)
    (fun x hx => bytes_to_value_uint x 2 (by norm_num)
      (by have := v2 x hx; norm_num at this ⊢; omega))
  rw [lA, g1] at h2
  norm_num [numIncident, numAzimuthal, numEnergy, numCycles] at h2
  have h3 := readVals_append 2 false (natToBE 2) some
    r.bg_counts (A ++ B) [0, 0] bs
    (by rw [hbsdef, hCdef]; simp [List.append_assoc])
    (fun x _ => natToBE_length 2 x)
    (fun x hx => bytes_to_value_uint x 2 (by norm_num)
      (by have := v3 x hx; norm_num at this ⊢; omega))
  rw [List.length_append, lA, lB, g2] at h3
  norm_num [numIncident, numAzimuthal, numEnergy, numCycles] at h3
  have hslice : pySlice bs 121320 4 = [0, 0] := by
    have hPlen : (A ++ B ++ C).length = 121320 := by
      rw [List.length_append, List.length_append, lA, lB, lC]
    have hbs2 : bs = (A ++ B ++ C) ++ [0, 0] := by
      rw [hbsdef]
      simp [List.append_assoc]
    rw [hbs2, ← hPlen]
    unfold pySlice
    rw [List.drop_left]
    rfl
  have hme : readVals bs 4 true 121320 720 = .error .structError := by
    rw [show (720 : ℕ) = 719 + 1 from rfl, readVals, hslice]
    rfl
  unfold parse_bitstring
  rw [hhex]
  dsimp only
  norm_num [numCycles, numEnergy, numAzimuthal, numIncident, numElectrode]
  rw [h1]
  dsimp only
  rw [h2]
  dsimp only
  rw [h3]
  dsimp only
  rw [hme]

/-- A truncation that cuts a 4-byte float read: the zero record's buffer cut
two bytes into `measure_energy` raises the bare `struct.error`. -/
theorem parse_floatCut :
    floatCutBytes.length = 121322 ∧
    parse_bitstring 0 (hexEncodeBytes floatCutBytes) =
      .error .structError :=
  parse_cutME 0 zeroRecord conforms_zero.2.1 conforms_zero.1.1
    conforms_zero.1.2.1 conforms_zero.2.2.1 zeroEnt
    (by
      intro ms hm
      simp only [zeroRecord] at hm
      exact zeroEnt_spec 0 rfl ms (List.eq_of_mem_replicate hm))

/-- C3 counterexample: a byte buffer one byte short of the schema length
(206,819 bytes) for which the decoder returns a record — with its final
`data_quality` element `None` — instead of failing with
`TruncatedInputError`; and two truncations that do raise — one cutting a
4-byte float read, one cutting an 8-byte timestamp read — both raise the
bare `struct.error`, not a `TruncatedInputError` naming the field. -/
theorem claim3_counterexample :
    ((encBytes truncRecord).length = 206819 ∧
      ∃ d, parse_bitstring 0 (hexEncodeBytes (encBytes truncRecord)) = .ok d ∧
        d.data_quality.getLast? = some none) ∧
    (floatCutBytes.length = 121322 ∧
      parse_bitstring 0 (hexEncodeBytes floatCutBytes) =
        .error .structError) ∧
    parse_bitstring 0 (hexEncodeBytes [0, 0, 0]) = .error .structError ∧
    PyErr.structError ≠ PyErr.truncatedInputError := by
  refine ⟨?_, parse_floatCut, by decide, by decide⟩
  have h := parse_one_byte_short 0 truncRecord
    (by simp [truncRecord, zeroRecord]) (by simp [truncRecord, zeroRecord])
    (by simp [truncRecord, zeroRecord]) (by simp [truncRecord, zeroRecord])
    (by simp [truncRecord, zeroRecord]) valuesOK_trunc
    (by simp [truncRecord, zeroRecord]) (by simp [truncRecord, zeroRecord])
    (by simp [truncRecord, zeroRecord]) zeroEnt
    (by
      intro ms hm
      simp only [truncRecord, zeroRecord] at hm
      exact zeroEnt_spec 0 rfl ms (List.eq_of_mem_replicate hm))
    (by
      intro ms hm
      simp only [truncRecord, zeroRecord] at hm
      exact zeroEnt_spec 0 rfl ms (List.eq_of_mem_replicate hm))
  refine ⟨?_, _, h, ?_⟩
  · obtain ⟨hg, hv, hep, hst, hdur⟩ := conforms_zero
    have h1 : truncRecord.epochs.length = numCycles := hep
    have h2 : truncRecord.electron_counts.length =
        numIncident * numAzimuthal * numEnergy * numCycles := hg.1
    have h3 : truncRecord.bg_counts.length =
        numIncident * numAzimuthal * numEnergy * numCycles := hg.2.1
    have h4 : truncRecord.measure_energy.length =
        numEnergy * numCycles := hg.2.2.1
    have h5 : truncRecord.output_hv.length =
        numElectrode * numEnergy * numIncident * numCycles := hg.2.2.2.1
    have h6 : truncRecord.data_quality.length =
        numEnergy * numAzimuthal * numIncident * numCycles - 1 :=
      List.length_replicate _ _
    have h7 : truncRecord.datataking_time_start.length = numCycles := hst
    have h8 : truncRecord.data_time_duration.length = numCycles := hdur
    rw [encBytes_length, h1, h2, h3, h4, h5, h6, h7, h8]
    norm_num [numCycles, numEnergy, numAzimuthal, numIncident, numElectrode]
  · exact List.getLast?_concat _

/-! ## Claim C4: trailing bytes -/

theorem wholeSecond_zero : wholeSecondInstants 0 zeroRecord := by
  intro ms hm
  have h0 : ms = 0 := by
    rcases List.mem_append.mp hm with h | h <;>
      exact List.eq_of_mem_replicate h
  subst h0
  refine ⟨⟨0, by ring⟩, by norm_num, by norm_num, by norm_num⟩

/-- C4 (amended).  The parser performs no trailing-integrity check: for a
conforming record (with decodable whole-second epochs), appending any byte
suffix to its encoding leaves the decode result unchanged — the trailing
bytes are silently ignored and no `IntegrityError` is raised. -/
theorem claim4_theorem (off : ℤ) (r : TelemetryRecord) (suffix : List ℕ)
    (hc : conformsSchema r) (hws : wholeSecondInstants off r)
    (hsuf : ∀ b ∈ suffix, b < 256) :
    parse_bitstring off (hexEncodeBytes (encBytes r ++ suffix)) =
      parse_bitstring off (hexEncodeBytes (encBytes r)) ∧
    ∃ d, parse_bitstring off (hexEncodeBytes (encBytes r ++ suffix)) = .ok d := by
  obtain ⟨hg, hv, hep, hst, hdur⟩ := hc
  have hent : ∀ ms ∈ r.epochs ++ r.datataking_time_start,
      msEpochEntry off ms =
        .ok ((ms : ℤ), ⟨((ms / 1000 : ℕ) : ℤ) + off, 0⟩) :=
    fun ms hm => msEpochEntry_of_whole_second off ms (hws ms hm)
  have h1 := parse_encBytes off r suffix hg hv hep hst hdur hsuf
    (fun ms => ((ms : ℤ), ⟨((ms / 1000 : ℕ) : ℤ) + off, 0⟩))
    (fun ms hm => hent ms (List.mem_append.mpr (Or.inl hm)))
    (fun ms hm => hent ms (List.mem_append.mpr (Or.inr hm)))
  have h2 := parse_encBytes off r [] hg hv hep hst hdur (by simp)
    (fun ms => ((ms : ℤ), ⟨((ms / 1000 : ℕ) : ℤ) + off, 0⟩))
    (fun ms hm => hent ms (List.mem_append.mpr (Or.inl hm)))
    (fun ms hm => hent ms (List.mem_append.mpr (Or.inr hm)))
  rw [List.append_nil] at h2
  exact ⟨h1.trans h2.symm, _, h1⟩

/-- C4 witness: one trailing byte (0xAB) after the all-zero record's
encoding is ignored. -/
theorem claim4_witness :
    parse_bitstring 0 (hexEncodeBytes (encBytes zeroRecord ++ [171])) =
      parse_bitstring 0 (hexEncodeBytes (encBytes zeroRecord)) ∧
    ∃ d, parse_bitstring 0
      (hexEncodeBytes (encBytes zeroRecord ++ [171])) = .ok d :=
  claim4_theorem 0 zeroRecord [171] conforms_zero wholeSecond_zero
    (by intro b hb; simp at hb; omega)

/-- C4 counterexample: a byte buffer one byte longer than the schema length
(206,821 bytes) which the decoder accepts, returning a record instead of
failing with `IntegrityError`. -/
theorem claim4_counterexample :
    (encBytes zeroRecord ++ [171]).length = 206821 ∧
    ∃ d, parse_bitstring 0
      (hexEncodeBytes (encBytes zeroRecord ++ [171])) = .ok d := by
  constructor
  · obtain ⟨hg, hv, hep, hst, hdur⟩ := conforms_zero
    rw [List.length_append, encBytes_length, hep, hst, hdur, hg.1, hg.2.1,
      hg.2.2.1, hg.2.2.2.1, hg.2.2.2.2]
    norm_num [numCycles, numEnergy, numAzimuthal, numIncident, numElectrode]
  · obtain ⟨hg, hv, hep, hst, hdur⟩ := conforms_zero
    have hent : ∀ ms ∈ zeroRecord.epochs ++ zeroRecord.datataking_time_start,
        msEpochEntry 0 ms = .ok (zeroEnt ms) := by
      intro ms hm
      have h0 : ms = 0 := by
        rcases List.mem_append.mp hm with h | h <;>
          exact List.eq_of_mem_replicate h
      exact zeroEnt_spec 0 rfl ms h0
    exact ⟨_, parse_encBytes 0 zeroRecord [171] hg hv hep hst hdur
      (by intro b hb; simp at hb; omega) zeroEnt
      (fun ms hm => hent ms (List.mem_append.mpr (Or.inl hm)))
      (fun ms hm => hent ms (List.mem_append.mpr (Or.inr hm)))⟩

/-! ## Claim C5: encoder shape validation -/

/-- Shapes exactly as SchemaDefinition prescribes, for every field. -/
def shapesOK (r : TelemetryRecord) : Prop :=
  gridShapesOK r ∧ r.epochs.length = numCycles ∧
  r.datataking_time_start.length = numCycles ∧
  r.data_time_duration.length = numCycles

/-- A mis-shaped record: 44 epochs instead of 45, all other fields as in
the all-zero conforming record. -/
def shortEpochRecord : TelemetryRecord :=
  { zeroRecord with epochs := List.replicate 44 0 }

theorem gridShapes_shortEpoch : gridShapesOK shortEpochRecord := by
  unfold gridShapesOK shortEpochRecord zeroRecord
  refine ⟨?_, ?_, ?_, ?_, ?_⟩ <;> simp

theorem valuesOK_shortEpoch : valuesOK shortEpochRecord := by
  unfold valuesOK shortEpochRecord zeroRecord
  refine ⟨?_, ?_, ?_, ?_, ?_, ?_, ?_, ?_⟩ <;>
    (intro v hv
     rw [List.eq_of_mem_replicate hv]
     with_unfolding_all decide)

/-- C5 (amended).  The encoder performs no shape validation whatsoever:
given in-range values (and gridded fields long enough for the fixed loops),
it happily encodes — the output length simply tracks the actual sequence
lengths instead of any schema check, and no `SchemaMismatchError` exists in
the code. -/
theorem claim5_theorem (r : TelemetryRecord) (hg : gridShapesOK r)
    (hv : valuesOK r) :
    create_hex_bitstring_from_data r = .ok (hexEncodeBytes (encBytes r)) ∧
    (encBytes r).length =
      8 * r.epochs.length + 2 * r.electron_counts.length +
      2 * r.bg_counts.length + 4 * r.measure_energy.length +
      4 * r.output_hv.length + 8 * r.datataking_time_start.length +
      4 * r.data_time_duration.length + r.data_quality.length :=
  ⟨create_hex_ok r hg hv, encBytes_length r⟩

/-- C5 witness: the encoder accepts the 44-epoch record. -/
theorem claim5_witness :
    create_hex_bitstring_from_data shortEpochRecord =
      .ok (hexEncodeBytes (encBytes shortEpochRecord)) ∧
    (encBytes shortEpochRecord).length =
      8 * shortEpochRecord.epochs.length +
      2 * shortEpochRecord.electron_counts.length +
      2 * shortEpochRecord.bg_counts.length +
      4 * shortEpochRecord.measure_energy.length +
      4 * shortEpochRecord.output_hv.length +
      8 * shortEpochRecord.datataking_time_start.length +
      4 * shortEpochRecord.data_time_duration.length +
      shortEpochRecord.data_quality.length :=
  claim5_theorem shortEpochRecord gridShapes_shortEpoch valuesOK_shortEpoch

/-- C5 counterexample: a record whose epoch axis has 44 entries instead of
45 — a shape disagreeing with the schema — is encoded without any error
(the output is simply 8 bytes shorter), refuting the claim that the encoder
fails with `SchemaMismatchError` on mis-shaped input. -/
theorem claim5_counterexample :
    ¬ shapesOK shortEpochRecord ∧
    create_hex_bitstring_from_data shortEpochRecord =
      .ok (hexEncodeBytes (encBytes shortEpochRecord)) ∧
    (encBytes shortEpochRecord).length = 206812 := by
  refine ⟨?_, create_hex_ok shortEpochRecord gridShapes_shortEpoch
    valuesOK_shortEpoch, ?_⟩
  · intro h
    have := h.2.1
    simp [shortEpochRecord, zeroRecord, numCycles] at this
  · obtain ⟨hg, hv, hep, hst, hdur⟩ := conforms_zero
    have h1 : shortEpochRecord.epochs.length = 44 := rfl
    have h2 : shortEpochRecord.electron_counts.length =
        numIncident * numAzimuthal * numEnergy * numCycles := hg.1
    have h3 : shortEpochRecord.bg_counts.length =
        numIncident * numAzimuthal * numEnergy * numCycles := hg.2.1
    have h4 : shortEpochRecord.measure_energy.length =
        numEnergy * numCycles := hg.2.2.1
    have h5 : shortEpochRecord.output_hv.length =
        numElectrode * numEnergy * numIncident * numCycles := hg.2.2.2.1
    have h6 : shortEpochRecord.data_quality.length =
        numEnergy * numAzimuthal * numIncident * numCycles := hg.2.2.2.2
    have h7 : shortEpochRecord.datataking_time_start.length = numCycles := hst
    have h8 : shortEpochRecord.data_time_duration.length = numCycles := hdur
    rw [encBytes_length, h1, h2, h3, h4, h5, h6, h7, h8]
    norm_num [numCycles, numEnergy, numAzimuthal, numIncident, numElectrode]

/-! ## Claim C6: host-timezone dependence of the timestamp decode -/

/-- The claim as stated: the decode of a timestamp field yields the same
naive datetime (hence the same ISO string) whatever the host UTC offset. -/
def tzInvariantTimestampDecode : Prop :=
  ∀ (byte_data : List ℕ) (off₁ off₂ : ℤ),
    bytes_to_tt2000 off₁ byte_data = bytes_to_tt2000 off₂ byte_data

/-- C6 (amended).  The decoded naive datetime (and so the ISO string) is
*not* host-independent: it shifts with the host UTC offset exactly —
`wallSec - off` is the invariant — while the microsecond field and the
stored `timestamp_ms` (`int(dt.timestamp() * 1000)`, which inverts the same
local breakdown) are identical across hosts. -/
theorem claim6_theorem (off₁ off₂ : ℤ) (byte_data : List ℕ) (d₁ d₂ : NaiveDt)
    (h₁ : bytes_to_tt2000 off₁ byte_data = .ok d₁)
    (h₂ : bytes_to_tt2000 off₂ byte_data = .ok d₂) :
    d₁.wallSec - off₁ = d₂.wallSec - off₂ ∧ d₁.usec = d₂.usec ∧
      dtTimestampMs off₁ d₁ = dtTimestampMs off₂ d₂ := by
  unfold bytes_to_tt2000 at h₁ h₂
  by_cases hlen : byte_data.length = 8
  · rw [if_pos hlen] at h₁ h₂
    simp only [pyFromtimestamp] at h₁ h₂
    split at h₁
    · exact absurd h₁ (by simp)
    · split at h₂
      · exact absurd h₂ (by simp)
      · injection h₁ with h₁
        injection h₂ with h₂
        subst h₁
        subst h₂
        refine ⟨?_, ?_, ?_⟩
        · dsimp only
          ring
        · rfl
        · simp only [dtTimestampMs, pyNaiveTimestamp]
          rw [add_sub_cancel_right, add_sub_cancel_right]
  · rw [if_neg hlen] at h₁
    exact absurd h₁ (by simp)

/-- C6 witness: epoch 0 decoded under offsets 0 and +3600 — concrete
decodes, with the invariants of `claim6_theorem` instantiated there. -/
theorem claim6_witness :
    bytes_to_tt2000 0 (natToBE 8 0) = .ok ⟨0, 0⟩ ∧
    bytes_to_tt2000 3600 (natToBE 8 0) = .ok ⟨3600, 0⟩ ∧
    ((0 : ℤ) - 0 = (3600 : ℤ) - 3600 ∧ (0 : ℕ) = (0 : ℕ) ∧
      dtTimestampMs 0 ⟨0, 0⟩ = dtTimestampMs 3600 ⟨3600, 0⟩) := by
  have hA : bytes_to_tt2000 0 (natToBE 8 0) = .ok ⟨0, 0⟩ := by
    have h := bytes_to_tt2000_whole_second 0 0 (by norm_num) (by norm_num)
      (by norm_num)
    simpa using h
  have hB : bytes_to_tt2000 3600 (natToBE 8 0) = .ok ⟨3600, 0⟩ := by
    have h := bytes_to_tt2000_whole_second 3600 0 (by norm_num) (by norm_num)
      (by norm_num)
    simpa using h
  exact ⟨hA, hB, claim6_theorem 0 3600 (natToBE 8 0) ⟨0, 0⟩ ⟨3600, 0⟩ hA hB⟩

/-- C6 counterexample: the same 8 epoch bytes decode to different naive
datetimes (different ISO strings) on a UTC host and on a UTC+1 host. -/
theorem claim6_counterexample :
    bytes_to_tt2000 0 (natToBE 8 0) = .ok ⟨0, 0⟩ ∧
    bytes_to_tt2000 3600 (natToBE 8 0) = .ok ⟨3600, 0⟩ ∧
    ¬ tzInvariantTimestampDecode := by
  have hA : bytes_to_tt2000 0 (natToBE 8 0) = .ok ⟨0, 0⟩ := by
    have h := bytes_to_tt2000_whole_second 0 0 (by norm_num) (by norm_num)
      (by norm_num)
    simpa using h
  have hB : bytes_to_tt2000 3600 (natToBE 8 0) = .ok ⟨3600, 0⟩ := by
    have h := bytes_to_tt2000_whole_second 3600 0 (by norm_num) (by norm_num)
      (by norm_num)
    simpa using h
  refine ⟨hA, hB, ?_⟩
  intro h
  have h2 := h (natToBE 8 0) 0 3600
  rw [hA, hB] at h2
  injection h2 with h3
  injection h3 with h4 h5
  exact absurd h4 (by decide)

/-! ## Claim C7: millisecond integer round trip -/

/-- C7 (amended).  Whole seconds survive: for every `k ≤ 253402300799`
(the datetime range on a UTC host) the millisecond count `1000 * k` is
decoded to exactly `timestamp_ms = 1000 * k` with a clean naive datetime.
Sub-second counts need not survive — see `claim7_counterexample`. -/
theorem claim7_theorem (k : ℕ) (hk : k ≤ 253402300799) :
    msEpochEntry 0 (1000 * k) =
      .ok (((1000 * k : ℕ) : ℤ), ⟨(k : ℤ), 0⟩) := by
  have h53 : 1000 * k < 2 ^ 53 := by omega
  have hlo : -62135596800 ≤ (k : ℤ) + 0 := by omega
  have hhi : (k : ℤ) + 0 ≤ 253402300799 := by omega
  have h := msEpochEntry_whole_second 0 k h53 hlo hhi
  rw [add_zero] at h
  exact h

/-- C7 witness: a concrete whole-second epoch (2023-11-14T22:13:20)
round trips exactly. -/
theorem claim7_witness :
    msEpochEntry 0 (1000 * 1700000000) =
      .ok (((1000 * 1700000000 : ℕ) : ℤ), ⟨(1700000000 : ℤ), 0⟩) :=
  claim7_theorem 1700000000 (by norm_num)

/-- C7 counterexample: the millisecond count 1001 is decoded as
`timestamp_ms = 1000` — `int(dt.timestamp() * 1000)` truncates the double
`1.001 * 1000 = 1000.9999999999999` down — so the decoded integer differs
from the encoded one. -/
theorem claim7_counterexample :
    msEpochEntry 0 1001 = .ok ((1000 : ℤ), ⟨1, 1000⟩) ∧
      (1000 : ℤ) ≠ 1001 := by
  constructor
  · with_unfolding_all decide
  · decide

/-! ## Claim C8: unsupported widths -/

/-- C8 (amended).  No `UnsupportedWidthError` exists.  An integer slice
whose length is outside {1, 2, 4, 8} is *silently* decoded as `None`
(`.ok none`), and a float slice whose length is outside {4, 8} raises
`struct.error` from `struct.unpack` itself. -/
theorem claim8_theorem (byte_data : List ℕ) :
    (¬ (byte_data.length = 1 ∨ byte_data.length = 2 ∨ byte_data.length = 4 ∨
        byte_data.length = 8) →
      bytes_to_value byte_data false = .ok none) ∧
    (byte_data.length ≠ 4 → byte_data.length ≠ 8 →
      bytes_to_value byte_data true = .error .structError) := by
  constructor
  · intro h
    unfold bytes_to_value
    rw [if_neg (by simp), if_neg h]
  · intro h4 h8
    unfold bytes_to_value
    rw [if_pos rfl, if_neg h4, if_neg h8]

/-- C8 witness: a 3-byte slice — unsupported in both modes. -/
theorem claim8_witness :
    bytes_to_value [0, 0, 0] false = .ok none ∧
    bytes_to_value [0, 0, 0] true = .error .structError :=
  ⟨(claim8_theorem [0, 0, 0]).1 (by decide),
   (claim8_theorem [0, 0, 0]).2 (by decide) (by decide)⟩

/-- C8 counterexample: a slice of unsupported width 3 makes the integer
path return `None` without raising anything, and the float path raise
`struct.error` — never an `UnsupportedWidthError`. -/
theorem claim8_counterexample :
    bytes_to_value [1, 2, 3] false = .ok none ∧
    bytes_to_value [1, 2, 3] true = .error .structError ∧
    bytes_to_value [1, 2, 3] false ≠ .error .unsupportedWidthError ∧
    bytes_to_value [1, 2, 3] true ≠ .error .unsupportedWidthError := by
  refine ⟨?_, ?_, ?_, ?_⟩ <;> decide

/-! ## Claim C9: container recovery from malformed headers -/

/-- C9.  A malformed `Bitstring` header (its index token unparsable or
missing) is skipped cleanly: the pending entry before it is flushed, the
payload lines after it are dropped until the next good header, and the
overall result is as if the bad header split the file in two —
`parse_multiple_bitstrings (pre ++ bad :: suf) =
parse_multiple_bitstrings pre ++ parse_multiple_bitstrings suf`. -/
theorem claim9_theorem (pre suf : List (List Char)) (bad : List Char)
    (h : malformedHeader bad) :
    parse_multiple_bitstrings (pre ++ bad :: suf) =
      parse_multiple_bitstrings pre ++ parse_multiple_bitstrings suf := by
  unfold parse_multiple_bitstrings
  rw [List.foldl_append, List.foldl_cons, stepLine_malformed _ _ h]
  have h1 : (⟨flushPending (pre.foldl stepLine ⟨[], none, []⟩), none, []⟩ :
        CState) =
      ⟨flushPending (pre.foldl stepLine ⟨[], none, []⟩) ++
          (⟨[], none, []⟩ : CState).results,
        (⟨[], none, []⟩ : CState).idx, (⟨[], none, []⟩ : CState).buf⟩ := by
    simp
  rw [h1, foldl_prepend, flushPending_prepend]

/-- C9 witness: a good entry, then a header with an unparsable index whose
following payload is dropped, then a good entry again. -/
theorem claim9_witness :
    malformedHeader ['B', 'i', 't', 's', 't', 'r', 'i', 'n', 'g', ' ', 'x',
      ':'] ∧
    parse_multiple_bitstrings
      ([['B', 'i', 't', 's', 't', 'r', 'i', 'n', 'g', ' ', '1', ':'],
        ['a', 'a', 'b', 'b']] ++
        ['B', 'i', 't', 's', 't', 'r', 'i', 'n', 'g', ' ', 'x', ':'] ::
        [['c', 'c'],
         ['B', 'i', 't', 's', 't', 'r', 'i', 'n', 'g', ' ', '2', ':'],
         ['d', 'd']]) =
      parse_multiple_bitstrings
        [['B', 'i', 't', 's', 't', 'r', 'i', 'n', 'g', ' ', '1', ':'],
         ['a', 'a', 'b', 'b']] ++
      parse_multiple_bitstrings
        [['c', 'c'],
         ['B', 'i', 't', 's', 't', 'r', 'i', 'n', 'g', ' ', '2', ':'],
         ['d', 'd']] :=
  ⟨by decide,
   claim9_theorem
     [['B', 'i', 't', 's', 't', 'r', 'i', 'n', 'g', ' ', '1', ':'],
      ['a', 'a', 'b', 'b']]
     [['c', 'c'],
      ['B', 'i', 't', 's', 't', 'r', 'i', 'n', 'g', ' ', '2', ':'],
      ['d', 'd']]
     ['B', 'i', 't', 's', 't', 'r', 'i', 'n', 'g', ' ', 'x', ':']
     (by decide)⟩

/-! ## Claim C10: encoder width quirks -/

/-- C10.  `value_to_bytes` quirks, exactly as claimed: a float with
`num_bytes ≠ 4` falls into the `else` branch and is packed as an 8-byte
big-endian double regardless of the requested width; an integer with
`num_bytes ∉ {1, 2, 4, 8}` falls off the `if/elif` chain and returns
`None` (no error). -/
theorem claim10_theorem (value num_bytes : ℕ) :
    (num_bytes ≠ 4 → value_to_bytes value num_bytes true =
        .ok (some (natToBE 8 value)) ∧ (natToBE 8 value).length = 8) ∧
    (¬ (num_bytes = 1 ∨ num_bytes = 2 ∨ num_bytes = 4 ∨ num_bytes = 8) →
      value_to_bytes value num_bytes false = .ok none) := by
  constructor
  · intro h
    refine ⟨?_, natToBE_length 8 value⟩
    unfold value_to_bytes
    rw [if_pos rfl, if_neg h]
  · intro h
    push_neg at h
    obtain ⟨h1, h2, h4, h8⟩ := h
    unfold value_to_bytes
    rw [if_neg (by simp), if_neg h1, if_neg h2, if_neg h4, if_neg h8]

/-- C10 witness: width 3 — the float path emits 8 bytes, the integer path
returns `None`. -/
theorem claim10_witness :
    (value_to_bytes 5 3 true = .ok (some (natToBE 8 5)) ∧
      (natToBE 8 5).length = 8) ∧
    value_to_bytes 5 3 false = .ok none :=
  ⟨(claim10_theorem 5 3).1 (by decide), (claim10_theorem 5 3).2 (by decide)⟩

end OSEPL4
